import Mathlib

/-!
Shallow embedding of `src/livestream.cpp`: a seekable live-stream ring buffer
fed by an HTTP transfer worker (libcurl) and drained by a consumer.

Modelling conventions:
* `size_t` / `uint64_t` are modelled as `Nat`; the only place machine-width
  wrapping matters is the `%llu` conversion of `sscanf`, which wraps modulo
  `2 ^ 64` (the values stored in the position registers fit `uint64_t` in all
  reachable states, because they are sums of byte counts).
* fallible member functions return `Except Err`;
* the ring storage is a function `Nat → Nat` (byte value at each index);
* the two threads (control thread and transfer worker) are modelled by
  explicit interleaving of the callback functions with the control API; a
  whole worker run is the fold `transfer_run` over the delivered header lines
  and data chunks of a `Transfer`.
-/

/-- Error kinds thrown by livestream.cpp: `std::out_of_range` (align_up),
`std::invalid_argument` (null/oversized arguments), `std::bad_alloc`, and the
`string_exception`s for state violations, transport setup failure, transport
runtime failure (carrying the CURL error text) and seek failure. -/
inductive Err where
  | outOfRange
  | invalidArgument
  | badAlloc
  | stateViolation
  | setupFailed
  | transferFailed (msg : List Char)
  | seekFailed
  deriving DecidableEq

/-- The `CURL_WRITEFUNC_PAUSE` sentinel (`0x10000001`) returned by the write
callback to make libcurl pause the transfer and re-deliver the same bytes on
resume. -/
def CURL_WRITEFUNC_PAUSE : Nat := 268435457

/-- The member variables of class `livestream` (declared in `livestream.h` and
used throughout `livestream.cpp`).  `m_buffer` is the ring storage as a byte
function; only indices below `m_buffersize` are meaningful.  `m_curl` models
whether the CURL easy-interface session currently exists, `m_workerJoinable`
whether the worker `std::thread` is joinable. -/
structure LivestreamState where
  m_buffersize : Nat
  m_buffer : Nat → Nat
  m_bufferhead : Nat
  m_buffertail : Nat
  m_startpos : Nat
  m_readpos : Nat
  m_writepos : Nat
  m_length : Nat
  m_started : Bool
  m_paused : Bool
  m_stop : Bool
  m_workerJoinable : Bool
  m_curl : Bool
  m_curlresult : Nat
  m_curlerr : List Char

/-- The expression of `align_up` (livestream.cpp lines 39-43) in the
non-throwing case - `0` for `value = 0`, otherwise
`value + ((alignment - (value % alignment)) % alignment)` - read over
unbounded naturals, i.e. the smallest multiple of the alignment at or above
the value.  The machine evaluates the same expression in `size_t`, where the
addition can wrap: that computation is `align_up_val_w` below.  The two agree
exactly on `value ≤ 2 ^ 64 - alignment` (see `align_up_val_w_eq`); this
unbounded reading is what the state model's capacity uses. -/
def align_up_val (value : Nat) (alignment : Nat) : Nat :=
  if value = 0 then 0 else value + ((alignment - (value % alignment)) % alignment)

/-- `align_up` (livestream.cpp lines 39-43) over the unbounded reading:
throws `std::out_of_range` when `alignment < 1`, otherwise aligns `value` up
to the next multiple of `alignment`. -/
def align_up (value : Nat) (alignment : Nat) : Except Err Nat :=
  if alignment < 1 then .error .outOfRange
  else .ok (align_up_val value alignment)

/-- The machine computation of `align_up` (livestream.cpp lines 39-43):
`value` is a `size_t` (a value below `2 ^ 64`) and the addition
`value + ((alignment - (value % alignment)) % alignment)` is `size_t`
arithmetic, wrapping modulo `2 ^ 64`.  For `value` in the top
`alignment - 1` values of `size_t` the sum reaches `2 ^ 64` and the result
wraps to a small value instead of a multiple at or above `value`. -/
def align_up_val_w (value : Nat) (alignment : Nat) : Nat :=
  if value = 0 then 0
  else (value + ((alignment - (value % alignment)) % alignment)) % 2 ^ 64

/-- `align_up` as the machine executes it: the `alignment < 1` guard of line
41, then the wrapping `size_t` computation. -/
def align_up_w (value : Nat) (alignment : Nat) : Except Err Nat :=
  if alignment < 1 then .error .outOfRange
  else .ok (align_up_val_w value alignment)

/-- The capacity the constructor (line 52) computes in `size_t` arithmetic:
`buffersize + WRITE_PADDING` wraps modulo `2 ^ 64` before the rounding, and
the rounding itself wraps as in `align_up_val_w`. -/
def capacity_w (P : Nat) (buffersize : Nat) : Nat :=
  align_up_val_w ((buffersize + P) % 2 ^ 64) 65536

/-- The `livestream` constructor (lines 52-61) together with the member
initializers.  Modelled from the spec: `WRITE_PADDING` and the default member
values are declared in `livestream.h`, which is not among the sources; the
spec gives `C = align_up(requested + WRITE_PADDING, 65536)`, describes
`WRITE_PADDING` as "a small constant reserved so the ring never reports full
equals empty", and describes the initial state as idle with all positions and
flags cleared.  `WRITE_PADDING` is kept as the parameter `P` here and in every
function that uses it, assumed positive (and `< 65536`, i.e. "small") where a
result depends on it.  The capacity is the unbounded rounding
`align_up_val`; the machine's wrapping `size_t` computation is `capacity_w`,
and the two agree whenever `buffersize + P ≤ 2 ^ 64 - 65536`
(see `C9_capacity`). -/
def livestream_init (P : Nat) (buffersize : Nat) : LivestreamState where
  m_buffersize := align_up_val (buffersize + P) 65536
  m_buffer := fun _ => 0
  m_bufferhead := 0
  m_buffertail := 0
  m_startpos := 0
  m_readpos := 0
  m_writepos := 0
  m_length := 0
  m_started := false
  m_paused := false
  m_stop := false
  m_workerJoinable := false
  m_curl := false
  m_curlresult := 0
  m_curlerr := []

namespace livestream

/-- The whitespace class of `isspace` in the C locale, as used by `sscanf`:
space, tab, newline, vertical tab, form feed, carriage return. -/
def is_space (c : Char) : Bool :=
  c = ' ' || c = '\t' || c = '\n' || c = '\x0b' || c = '\x0c' || c = '\r'

/-- Skip a (possibly empty) run of whitespace, as a whitespace character in a
`scanf` format does. -/
def skip_ws : List Char → List Char
  | [] => []
  | c :: rest => if is_space c then skip_ws rest else c :: rest

/-- Match the literal characters of a `scanf` format (first argument) against
the input, returning the rest of the input on success. -/
def match_lit : List Char → List Char → Option (List Char)
  | [], s => some s
  | _ :: _, [] => none
  | l :: ls, c :: cs => if c = l then match_lit ls cs else none

/-- Accumulate a run of decimal digits into a value, stopping at the first
non-digit (the behaviour of the digit loop inside `%llu`). -/
def take_digits_val : List Char → Nat → Nat
  | [], acc => acc
  | c :: cs, acc => if c.isDigit then take_digits_val cs (acc * 10 + (c.toNat - 48)) else acc

/-- The `%llu` conversion of `sscanf`: skip whitespace, accept an optionally
signed decimal integer, store it wrapped modulo `2 ^ 64` into the
`unsigned long long` target.  Fails (assigning nothing) when no digit
follows. -/
def scan_llu (s : List Char) : Option Nat :=
  let s1 := skip_ws s
  match s1 with
  | '-' :: rest =>
      if (rest.headD 'x').isDigit then some ((2 ^ 64 - take_digits_val rest 0 % 2 ^ 64) % 2 ^ 64)
      else none
  | '+' :: rest =>
      if (rest.headD 'x').isDigit then some (take_digits_val rest 0 % 2 ^ 64)
      else none
  | _ => if (s1.headD 'x').isDigit then some (take_digits_val s1 0 % 2 ^ 64) else none

/-- Models `sscanf(data, "Content-Range: bytes %llu-", &rangestart) == 1`
(livestream.cpp line 107).  The format's literal text must match exactly; a
whitespace character in the format matches any amount of input whitespace
(including none); `%llu` itself skips whitespace and accepts an optionally
signed decimal.  The trailing literal `-` cannot influence the return value of
`sscanf`, which already counts the assigned `%llu`, so a line lacking the dash
still parses. -/
def scanContentRange (line : List Char) : Option Nat :=
  match match_lit ("Content-Range:".toList) line with
  | none => none
  | some r1 =>
    match match_lit ("bytes".toList) (skip_ws r1) with
    | none => none
    | some r2 => scan_llu r2

/-- The `"Content-Range:"` header prefix of livestream.cpp line 85. -/
def CONTENT_RANGE_HEADER : List Char := "Content-Range:".toList

/-- `livestream::curl_responseheaders` (lines 83-115): called with one response
header line of `cb = size * count` bytes.  Returns `cb`; when the line starts
with the exact, case-sensitive `Content-Range:` prefix and the `sscanf` parse
succeeds, sets `m_startpos = m_readpos = m_writepos = rangestart`.  The
source's guard `cb >= CONTENT_RANGE_HEADER_LEN && strncmp(...) == 0` is
exactly the prefix test on the `cb`-byte line. -/
def curl_responseheaders (line : List Char) (s : LivestreamState) : Nat × LivestreamState :=
  let cb := line.length
  if cb = 0 then (0, s)
  else if CONTENT_RANGE_HEADER.isPrefixOf line then
    match scanContentRange line with
    | some rangestart =>
        (cb, { s with m_startpos := rangestart, m_readpos := rangestart,
                      m_writepos := rangestart })
    | none => (cb, s)
  else (cb, s)

/-- `livestream::curl_transfercontrol` (lines 130-142): consume a pending stop
signal and abort (non-zero return), else consume a pending pause and resume
the transfer, else do nothing. -/
def curl_transfercontrol (s : LivestreamState) : Int × LivestreamState :=
  if s.m_stop then (-1, { s with m_stop := false })
  else if s.m_paused then (0, { s with m_paused := false })
  else (0, s)

/-- Available-to-write space from a `(head, tail)` snapshot (line 177):
`head < tail ? tail - head : (buffersize - head) + tail`. -/
def ring_available (C head tail : Nat) : Nat :=
  if head < tail then tail - head else (C - head) + tail

/-- Bytes buffered between `tail` and `head` (the amount the read loop of
lines 281-297 can consume): `tail <= head ? head - tail : (C - tail) + head`.
With the padding invariant, `head = tail` means empty. -/
def read_available (C head tail : Nat) : Nat :=
  if tail ≤ head then head - tail else (C - tail) + head

/-- The copy loop of `livestream::curl_write` (lines 181-194): while bytes
remain, copy the contiguous chunk up to the tail or the physical end of the
buffer, advance `head`, wrapping it to zero at the end of the buffer.  `fuel`
bounds the iteration count (each iteration of the source loop makes progress
whenever `head < C`, so `fuel = data.length` suffices). -/
def curl_write_loop (C tail : Nat) :
    Nat → (Nat → Nat) → List Nat → Nat → Nat → (Nat → Nat) × Nat × Nat
  | 0, buffer, _, head, byteswritten => (buffer, head, byteswritten)
  | fuel + 1, buffer, data, head, byteswritten =>
    if data.length = 0 then (buffer, head, byteswritten)
    else
      let cb := data.length
      let chunk := if head < tail then min cb (tail - head) else min cb (C - head)
      let buffer2 := fun i => if head ≤ i ∧ i < head + chunk then data.getD (i - head) 0
                              else buffer i
      let head2 := head + chunk
      let head3 := if C ≤ head2 then 0 else head2
      curl_write_loop C tail fuel buffer2 (data.drop chunk) head3 (byteswritten + chunk)

/-- `livestream::curl_write` (lines 156-214): the write sink.  Returns `0` for
an empty chunk (the null-pointer guards of line 161 concern pointer validity
and are outside the byte-level model); pauses, writing nothing, when the
available space is below `cb + WRITE_PADDING`; otherwise copies all bytes,
publishes the new head, advances `m_writepos`, raises `m_length` to the new
`m_writepos` when exceeded, and sets `m_started`. -/
def curl_write (P : Nat) (data : List Nat) (s : LivestreamState) : Nat × LivestreamState :=
  let cb := data.length
  if cb = 0 then (0, s)
  else
    let head := s.m_bufferhead
    let tail := s.m_buffertail
    let available := ring_available s.m_buffersize head tail
    if available < cb + P then (CURL_WRITEFUNC_PAUSE, { s with m_paused := true })
    else
      let r := curl_write_loop s.m_buffersize tail cb s.m_buffer data head 0
      let byteswritten := r.2.2
      let writepos2 := s.m_writepos + byteswritten
      (byteswritten,
       { s with m_buffer := r.1, m_bufferhead := r.2.1,
                m_writepos := writepos2,
                m_length := if s.m_length < writepos2 then writepos2 else s.m_length,
                m_started := true })

/-- The copy loop of `livestream::read` (lines 281-297): while bytes are
wanted, copy the contiguous chunk up to `head` or the physical end of the
buffer, advance `tail` (wrapping at the end), and stop early when `tail`
reaches `head`.  Returns the bytes read (in order) and the final `tail`.
`fuel = count` bounds the iterations. -/
def read_loop (C : Nat) (buffer : Nat → Nat) (head : Nat) :
    Nat → Nat → Nat → List Nat × Nat
  | 0, _, tail => ([], tail)
  | fuel + 1, count, tail =>
    if count = 0 then ([], tail)
    else
      let chunk := if tail < head then min count (head - tail) else min count (C - tail)
      let piece := (List.range chunk).map fun j => buffer (tail + j)
      let tail2 := tail + chunk
      let tail3 := if C ≤ tail2 then 0 else tail2
      if tail3 = head then (piece, tail3)
      else
        let r := read_loop C buffer head fuel (count - chunk) tail3
        (piece ++ r.1, r.2)

/-- `livestream::read` (lines 256-305).  `bufferNull` models the
`buffer == nullptr` argument check.  The condition-variable wait of line 269
admits data only when `head != tail`; in this sequential model no concurrent
writer can change that during the wait, so an empty ring is exactly the
timeout case, returning zero bytes.  Otherwise the loop reads up to `count`
bytes, the new tail is published and `m_readpos` advanced by the bytes read. -/
def read (bufferNull : Bool) (count : Nat) (s : LivestreamState) :
    Except Err (List Nat × LivestreamState) :=
  if bufferNull then .error .invalidArgument
  else if s.m_buffersize < count then .error .invalidArgument
  else if count = 0 then .ok ([], s)
  else
    let head := s.m_bufferhead
    let tail := s.m_buffertail
    if head = tail then .ok ([], s)
    else
      let r := read_loop s.m_buffersize s.m_buffer head count count tail
      .ok (r.1, { s with m_buffertail := r.2, m_readpos := s.m_readpos + r.1.length })

/-- `livestream::reset_stream_state` (lines 316-336): refuses to run while the
worker is joinable (the lock-ownership check concerns the ambient mutex
discipline, which the sequential model makes implicit); clears the control
flags, zeroes the three positions (leaving `m_length` intact) and empties the
ring indices. -/
def reset_stream_state (s : LivestreamState) : Except Err LivestreamState :=
  if s.m_workerJoinable then .error .stateViolation
  else .ok { s with m_started := false, m_paused := false, m_stop := false,
                    m_startpos := 0, m_readpos := 0, m_writepos := 0,
                    m_bufferhead := 0, m_buffertail := 0 }

/-- The minimum position represented in the ring buffer (line 362):
`(writepos - startpos) > buffersize ? writepos - buffersize : startpos`. -/
def min_buffered (s : LivestreamState) : Nat :=
  if s.m_buffersize < s.m_writepos - s.m_startpos then s.m_writepos - s.m_buffersize
  else s.m_startpos

/-- One worker transfer as delivered by libcurl: the response header lines,
the data chunks offered to the write callback, the final `CURLcode` of
`curl_easy_perform` (`0 = CURLE_OK`) and the error text curl leaves in the
caller-supplied error buffer on failure. -/
structure Transfer where
  headers : List (List Char)
  chunks : List (List Nat)
  result : Nat
  errtext : List Char

/-- Deliver the response header lines to `curl_responseheaders` in order. -/
def deliver_headers (hs : List (List Char)) (s : LivestreamState) : LivestreamState :=
  hs.foldl (fun t h => (curl_responseheaders h t).2) s

/-- Deliver data chunks to `curl_write` in order.  When a chunk is refused
with `CURL_WRITEFUNC_PAUSE` the transfer stalls there: with no reader draining
the ring, the progress callback's resume re-offers the same bytes to an
unchanged ring and pauses again.  Returns the final state, whether the
transfer stalled, and whether any data was produced (some write returned a
positive byte count, which sets `m_started`). -/
def deliver_chunks (P : Nat) : List (List Nat) → LivestreamState → LivestreamState × Bool × Bool
  | [], s => (s, false, false)
  | c :: rest, s =>
    let r := curl_write P c s
    if r.1 = CURL_WRITEFUNC_PAUSE then (r.2, true, false)
    else
      let rr := deliver_chunks P rest r.2
      (rr.1, rr.2.1, rr.2.2 || decide (0 < r.1))

/-- `livestream::transfer_func` (lines 515-525) driving one whole transfer:
reset `m_curlresult` to `CURLE_OK` and clear the error buffer, run the
transfer (headers, then data chunks), and - unless the transfer stalled in a
pause - record the final result code (with curl's error text on failure) and
set `m_started`.  Returns the final state, the stall flag and the
data-produced flag. -/
def transfer_run (P : Nat) (t : Transfer) (s : LivestreamState) :
    LivestreamState × Bool × Bool :=
  let s0 := { s with m_curlresult := 0, m_curlerr := [] }
  let s1 := deliver_headers t.headers s0
  let d := deliver_chunks P t.chunks s1
  if d.2.1 then (d.1, true, d.2.2)
  else ({ d.1 with m_curlresult := t.result, m_started := true,
                   m_curlerr := if t.result ≠ 0 then t.errtext else d.1.m_curlerr },
        false, d.2.2)

/-- `livestream::start` (lines 424-466).  `setup_ok` models whether the
`curl_easy_setopt` sequence succeeded.  The control thread spawns the worker
and blocks in `m_started.wait_until_equals(true)`; `m_started` is first set
either by the first successful write (line 211) or by `transfer_func` after
`curl_easy_perform` returns (line 524).  At that first wake `m_curlresult`
still holds the `CURLE_OK` written at line 518 when data was produced, and
holds the final transfer result when the transfer ended without producing
data.  A transfer that stalls in a pause before producing any data never sets
`m_started`, so `start` never returns: that is the `none` case. -/
def start (P : Nat) (url : Option (List Char)) (setup_ok : Bool) (t : Transfer)
    (s : LivestreamState) : Option (Except Err (Nat × LivestreamState)) :=
  if url.isNone then some (.error .invalidArgument)
  else if s.m_workerJoinable then some (.error .stateViolation)
  else if setup_ok = false then some (.error .setupFailed)
  else
    let r := transfer_run P t { s with m_curl := true, m_workerJoinable := true }
    if r.2.1 && !r.2.2 then none
    else if (if r.2.2 then 0 else t.result) ≠ 0 then
      some (.error (.transferFailed r.1.m_curlerr))
    else some (.ok (r.1.m_readpos, r.1))

/-- `livestream::seek` (lines 347-415).  Order of the checks follows the
source: the `position == m_readpos` no-op comes before the joinable test.  An
in-buffer seek rewrites only the tail and `m_readpos`.  Out of buffer, the
worker is stopped and joined, the state reset, the `Range` header rewritten
(`range_ok` models whether `curl_easy_setopt(CURLOPT_RANGE, ...)` succeeded;
on failure the session is destroyed and a fatal seek error thrown), and a new
worker spawned, waited for exactly as in `start`. -/
def seek (P : Nat) (position : Nat) (range_ok : Bool) (t : Transfer)
    (s : LivestreamState) : Option (Except Err (Nat × LivestreamState)) :=
  if position = s.m_readpos then some (.ok (position, s))
  else if s.m_workerJoinable = false then some (.error .stateViolation)
  else
    let minpos := min_buffered s
    if minpos ≤ position ∧ position ≤ s.m_writepos then
      let newtail :=
        if minpos = s.m_startpos then position - s.m_startpos
        else
          let tail := s.m_bufferhead
          let delta := position - minpos
          if s.m_buffersize - tail ≤ delta then delta - (s.m_buffersize - tail)
          else tail + delta
      some (.ok (position, { s with m_buffertail := newtail, m_readpos := position }))
    else
      let s1 := { s with m_workerJoinable := false }
      match reset_stream_state s1 with
      | .error e => some (.error e)
      | .ok s2 =>
        if range_ok = false then some (.error .seekFailed)
        else
          let r := transfer_run P t { s2 with m_workerJoinable := true }
          if r.2.1 && !r.2.2 then none
          else if (if r.2.2 then 0 else t.result) ≠ 0 then some (.error .seekFailed)
          else some (.ok (r.1.m_readpos, r.1))

/-- `livestream::stop` (lines 477-504).  When no worker is joinable, returns
0.  Otherwise signals stop, joins the worker (`joinResult`/`joinErr` are the
result code and error text the aborting worker's `transfer_func` recorded),
captures `m_readpos`, resets the stream state, resets `m_length` to 0 and
destroys the CURL session. -/
def stop (joinResult : Nat) (joinErr : List Char) (s : LivestreamState) :
    Except Err (Nat × LivestreamState) :=
  if s.m_workerJoinable = false then .ok (0, s)
  else
    let s2 := { s with m_stop := true, m_workerJoinable := false,
                       m_curlresult := joinResult, m_curlerr := joinErr, m_started := true }
    match reset_stream_state s2 with
    | .error e => .error e
    | .ok s3 => .ok (s2.m_readpos, { s3 with m_length := 0, m_curl := false })

/-- `livestream::position` (lines 239-243). -/
def position (s : LivestreamState) : Nat := s.m_readpos

/-- `livestream::length` (lines 225-228). -/
def stream_length (s : LivestreamState) : Nat := s.m_length

/-- Targets at which an in-buffer seek keeps the ring indices consistent.
When the buffered window `writepos - startpos` has reached exactly the
capacity, seeking to `writepos` writes `tail = buffersize` (out of range) and
seeking to `startpos` makes a full ring indistinguishable from an empty one;
once the window exceeds the capacity, seeking to the minimum buffered
position `writepos - buffersize` does the same.  Every other target is
harmless. -/
def seek_safe (s : LivestreamState) (pos : Nat) : Prop :=
  s.m_writepos - s.m_startpos < s.m_buffersize ∨
  (pos ≠ s.m_writepos - s.m_buffersize ∧
   (s.m_writepos - s.m_startpos = s.m_buffersize → pos ≠ s.m_writepos))

/-- The ring/position consistency invariant: indices in range, positions
ordered, the unread byte count `writepos - readpos` equal to the bytes
buffered between tail and head, the head congruent to the bytes written since
the stream (re)started, and the idle structure of a not-yet-started
transfer. -/
def Inv (s : LivestreamState) : Prop :=
  0 < s.m_buffersize ∧
  s.m_bufferhead < s.m_buffersize ∧
  s.m_buffertail < s.m_buffersize ∧
  s.m_startpos ≤ s.m_readpos ∧
  s.m_readpos ≤ s.m_writepos ∧
  s.m_writepos - s.m_readpos = read_available s.m_buffersize s.m_bufferhead s.m_buffertail ∧
  s.m_bufferhead = (s.m_writepos - s.m_startpos) % s.m_buffersize ∧
  (s.m_started = false → s.m_bufferhead = 0 ∧ s.m_buffertail = 0 ∧
     s.m_startpos = s.m_readpos ∧ s.m_readpos = s.m_writepos) ∧
  (s.m_workerJoinable = false → s.m_started = false)

/-- The states an instance can reach: construction, spawning a worker (the
setup part of `start`/the seek restart, after which the callbacks fire on the
worker thread while the control thread waits), response headers (which libcurl
delivers before any body data of the transfer, hence `m_started = false`),
body chunks offered to the write sink, consumer reads, and the three control
operations run to successful completion.  With `unrestricted := false` the
in-buffer seeks are restricted to `seek_safe` targets. -/
inductive Reach (P : Nat) (unrestricted : Bool) : LivestreamState → Prop where
  | init (req : Nat) : Reach P unrestricted (livestream_init P req)
  | spawn (s : LivestreamState) (h : Reach P unrestricted s)
      (hj : s.m_workerJoinable = false) :
      Reach P unrestricted
        { s with m_workerJoinable := true, m_curl := true, m_curlresult := 0, m_curlerr := [] }
  | header (s : LivestreamState) (line : List Char) (h : Reach P unrestricted s)
      (hj : s.m_workerJoinable = true) (hst : s.m_started = false) :
      Reach P unrestricted (curl_responseheaders line s).2
  | write (s : LivestreamState) (d : List Nat) (h : Reach P unrestricted s)
      (hj : s.m_workerJoinable = true) :
      Reach P unrestricted (curl_write P d s).2
  | readStep (s : LivestreamState) (count : Nat) (out : List Nat) (s2 : LivestreamState)
      (h : Reach P unrestricted s) (hr : read false count s = .ok (out, s2)) :
      Reach P unrestricted s2
  | startStep (s : LivestreamState) (url : Option (List Char)) (ok : Bool) (t : Transfer)
      (r : Nat) (s2 : LivestreamState) (h : Reach P unrestricted s)
      (hs : start P url ok t s = some (.ok (r, s2))) :
      Reach P unrestricted s2
  | seekStep (s : LivestreamState) (pos : Nat) (rok : Bool) (t : Transfer)
      (r : Nat) (s2 : LivestreamState) (h : Reach P unrestricted s)
      (hsafe : unrestricted = true ∨ seek_safe s pos)
      (hs : seek P pos rok t s = some (.ok (r, s2))) :
      Reach P unrestricted s2
  | stopStep (s : LivestreamState) (jr : Nat) (je : List Char)
      (r : Nat) (s2 : LivestreamState) (h : Reach P unrestricted s)
      (hs : stop jr je s = .ok (r, s2)) :
      Reach P unrestricted s2

/-- Concrete run used to refute the universal ring invariant:
`P = 32768`, requested size 100, so capacity `C = 65536`. -/
def c7s0 : LivestreamState := livestream_init 32768 100

/-- After `start` has spawned the worker (transfer in flight). -/
def c7s1 : LivestreamState :=
  { c7s0 with m_workerJoinable := true, m_curl := true, m_curlresult := 0, m_curlerr := [] }

/-- A small concrete streaming state: worker spawned, three bytes written
(`writepos = 3`, `head = 3`, both positions still at 0). -/
def c2w : LivestreamState :=
  (curl_write 1 [7, 8, 9] { livestream_init 1 0 with m_workerJoinable := true }).2

/-! ## Arithmetic and list helpers -/

lemma mod_char (x C : Nat) (h : x < 2 * C) : x % C = if x < C then x else x - C := by
  split
  · exact Nat.mod_eq_of_lt (by omega)
  · rw [Nat.mod_eq_sub_mod (by omega)]
    exact Nat.mod_eq_of_lt (by omega)

lemma ring_index_inj (C head a b : Nat) (hh : head < C) (ha : a < C) (hb : b < C)
    (h : (head + a) % C = (head + b) % C) : a = b := by
  rw [mod_char (head + a) C (by omega), mod_char (head + b) C (by omega)] at h
  split_ifs at h <;> omega

lemma list_getD_drop (l : List Nat) (n m : Nat) : (l.drop n).getD m 0 = l.getD (n + m) 0 := by
  rw [List.getD_eq_getElem?_getD, List.getD_eq_getElem?_getD, List.getElem?_drop]

lemma list_getD_range_map (f : Nat → Nat) (n j : Nat) (h : j < n) :
    ((List.range n).map f).getD j 0 = f j := by
  rw [List.getD_eq_getElem?_getD]
  simp [List.getElem?_map, List.getElem?_range h]

lemma list_getD_append_left (l r : List Nat) (j : Nat) (h : j < l.length) :
    (l ++ r).getD j 0 = l.getD j 0 := by
  simp [List.getD_eq_getElem?_getD, List.getElem?_append, h]

lemma list_getD_append_right (l r : List Nat) (j : Nat) (h : l.length ≤ j) :
    (l ++ r).getD j 0 = r.getD (j - l.length) 0 := by
  simp [List.getD_eq_getElem?_getD, List.getElem?_append, Nat.not_lt.mpr h]

lemma ring_available_le (C head tail : Nat) (hh : head < C) (ht : tail < C) :
    ring_available C head tail ≤ C := by
  unfold ring_available; split <;> omega

lemma read_available_add_ring_available (C head tail : Nat) (hh : head < C) (ht : tail < C) :
    read_available C head tail + ring_available C head tail = C := by
  unfold read_available ring_available; split_ifs <;> omega

/-! ## The write loop -/

lemma ring_available_advance (C head tail chunk : Nat) (hh : head < C) (ht : tail < C)
    (hcont : chunk ≤ if head < tail then tail - head else C - head)
    (hlt : chunk < ring_available C head tail) :
    head + chunk ≤ C ∧
    ring_available C ((head + chunk) % C) tail = ring_available C head tail - chunk := by
  have hle : head + chunk ≤ C := by
    rcases Nat.lt_or_ge head tail with h | h
    · rw [if_pos h] at hcont; omega
    · rw [if_neg (Nat.not_lt.mpr h)] at hcont; omega
  have hmod : (head + chunk) % C = if head + chunk < C then head + chunk else head + chunk - C :=
    mod_char _ _ (by omega)
  refine ⟨hle, ?_⟩
  unfold ring_available at hlt ⊢
  rw [hmod]
  split_ifs at hcont hlt ⊢ <;> omega

lemma curl_write_loop_spec (C tail : Nat) (ht : tail < C) :
    ∀ (fuel : Nat) (data : List Nat) (buf : Nat → Nat) (head w : Nat),
      head < C → data.length ≤ fuel → data.length < ring_available C head tail →
      (curl_write_loop C tail fuel buf data head w).2.1 = (head + data.length) % C ∧
      (curl_write_loop C tail fuel buf data head w).2.2 = w + data.length ∧
      (∀ j, j < data.length →
        (curl_write_loop C tail fuel buf data head w).1 ((head + j) % C) = data.getD j 0) ∧
      (∀ i, i < C → (∀ j, j < data.length → (head + j) % C ≠ i) →
        (curl_write_loop C tail fuel buf data head w).1 i = buf i) := by
  intro fuel
  induction fuel with
  | zero =>
    intro data buf head w hh hf _
    have hd : data.length = 0 := by omega
    refine ⟨?_, ?_, ?_, ?_⟩ <;> simp [curl_write_loop, hd, Nat.mod_eq_of_lt hh]
  | succ fuel ih =>
    intro data buf head w hh hf hfit
    by_cases hd : data.length = 0
    · refine ⟨?_, ?_, ?_, ?_⟩ <;> simp [curl_write_loop, hd, Nat.mod_eq_of_lt hh]
    · have hC : 0 < C := by omega
      have hcb : 0 < data.length := Nat.pos_of_ne_zero hd
      have havle : ring_available C head tail ≤ C := ring_available_le C head tail hh ht
      set cb := data.length with hcb_def
      set chunk := if head < tail then min cb (tail - head) else min cb (C - head)
        with hchunk_def
      have hchunk : 0 < chunk ∧ chunk ≤ cb ∧
          chunk ≤ (if head < tail then tail - head else C - head) := by
        rw [hchunk_def]
        have h0 : 0 < cb := hcb
        split_ifs <;> omega
      have hadv := ring_available_advance C head tail chunk hh ht hchunk.2.2 (by omega)
      have hle : head + chunk ≤ C := hadv.1
      have havail2 := hadv.2
      have hmod : (head + chunk) % C = if head + chunk < C then head + chunk
          else head + chunk - C := mod_char (head + chunk) C (by omega)
      have hh3 : (head + chunk) % C < C := Nat.mod_lt _ hC
      have hdrop : (data.drop chunk).length = cb - chunk := by
        simp [hcb_def]
      have hstep : curl_write_loop C tail (fuel + 1) buf data head w =
          curl_write_loop C tail fuel
            (fun i => if head ≤ i ∧ i < head + chunk then data.getD (i - head) 0 else buf i)
            (data.drop chunk) (if C ≤ head + chunk then 0 else head + chunk) (w + chunk) := by
        conv_lhs => rw [curl_write_loop]
        simp only [hd, if_false, ← hcb_def, ← hchunk_def]
      have hwrap : (if C ≤ head + chunk then 0 else head + chunk) = (head + chunk) % C := by
        rw [hmod]; split_ifs <;> omega
      rw [hstep, hwrap]
      have hrec := ih (data.drop chunk)
        (fun i => if head ≤ i ∧ i < head + chunk then data.getD (i - head) 0 else buf i)
        ((head + chunk) % C) (w + chunk) hh3 (by omega) (by rw [hdrop, havail2]; omega)
      obtain ⟨rh, rw', rc, ru⟩ := hrec
      rw [hdrop] at rh rw' rc
      refine ⟨?_, ?_, ?_, ?_⟩
      · rw [rh, Nat.mod_add_mod]
        congr 1
        omega
      · rw [rw']; omega
      · intro j hj
        by_cases hjc : j < chunk
        · have hidx : (head + j) % C = head + j := Nat.mod_eq_of_lt (by omega)
          rw [hidx]
          have := ru (head + j) (by omega) ?_
          · rw [this]
            simp only [if_pos (by omega : head ≤ head + j ∧ head + j < head + chunk)]
            congr 1
            omega
          · intro j2 hj2 heq
            have hj2' : chunk + j2 < C := by omega
            have : (((head + chunk) % C) + j2) % C = (head + (chunk + j2)) % C := by
              rw [Nat.mod_add_mod, Nat.add_assoc]
            rw [this] at heq
            rw [← Nat.mod_eq_of_lt (show head + j < C by omega)] at heq
            have := ring_index_inj C head (chunk + j2) j hh hj2' (by omega) heq
            omega
        · have hj2 : j - chunk < cb - chunk := by omega
          have := rc (j - chunk) hj2
          rw [list_getD_drop] at this
          have hidx : ((head + chunk) % C + (j - chunk)) % C = (head + j) % C := by
            rw [Nat.mod_add_mod]
            congr 1
            omega
          rw [hidx] at this
          rw [this]
          congr 1
          omega
      · intro i hi hnot
        have h1 := ru i hi ?_
        · rw [h1]
          have : ¬(head ≤ i ∧ i < head + chunk) := by
            rintro ⟨hle, hlt⟩
            exact hnot (i - head) (by omega) (by rw [Nat.mod_eq_of_lt (by omega)]; omega)
          simp only [if_neg this]
        · intro j hj heq
          have : (((head + chunk) % C) + j) % C = (head + (chunk + j)) % C := by
            rw [Nat.mod_add_mod, Nat.add_assoc]
          rw [this] at heq
          exact hnot (chunk + j) (by omega) heq

/-- The pause branch of `curl_write`: insufficient headroom sets `m_paused`
and returns the sentinel, touching nothing else. -/
lemma curl_write_pause (P : Nat) (d : List Nat) (s : LivestreamState)
    (hcb : 0 < d.length)
    (hav : ring_available s.m_buffersize s.m_bufferhead s.m_buffertail < d.length + P) :
    curl_write P d s = (CURL_WRITEFUNC_PAUSE, { s with m_paused := true }) := by
  have hne : ¬(d.length = 0) := by omega
  simp only [curl_write, if_neg hne, if_pos hav]

/-- The accept branch of `curl_write`: all `n` bytes are copied (split at the
wrap), the head advances to `(head + n) % C`, `m_writepos` grows by `n`,
`m_length` is raised to the new `m_writepos` when exceeded, `m_started` is
set, and the full byte count is returned; the ring bytes outside the written
arc are untouched. -/
lemma curl_write_accept (P : Nat) (d : List Nat) (s : LivestreamState)
    (hP : 0 < P) (hcb : 0 < d.length)
    (hh : s.m_bufferhead < s.m_buffersize) (ht : s.m_buffertail < s.m_buffersize)
    (hav : d.length + P ≤ ring_available s.m_buffersize s.m_bufferhead s.m_buffertail) :
    (curl_write P d s).1 = d.length ∧
    (curl_write P d s).2 = { s with
        m_buffer := (curl_write P d s).2.m_buffer,
        m_bufferhead := (s.m_bufferhead + d.length) % s.m_buffersize,
        m_writepos := s.m_writepos + d.length,
        m_length := if s.m_length < s.m_writepos + d.length then s.m_writepos + d.length
          else s.m_length,
        m_started := true } ∧
    (∀ j, j < d.length →
      (curl_write P d s).2.m_buffer ((s.m_bufferhead + j) % s.m_buffersize) = d.getD j 0) ∧
    (∀ i, i < s.m_buffersize →
      (∀ j, j < d.length → (s.m_bufferhead + j) % s.m_buffersize ≠ i) →
      (curl_write P d s).2.m_buffer i = s.m_buffer i) := by
  have hne : ¬(d.length = 0) := by omega
  have hnav : ¬(ring_available s.m_buffersize s.m_bufferhead s.m_buffertail < d.length + P) :=
    by omega
  obtain ⟨lh, lw, lc, lu⟩ := curl_write_loop_spec s.m_buffersize s.m_buffertail ht d.length d
    s.m_buffer s.m_bufferhead 0 hh (le_refl _) (by omega)
  refine ⟨?_, ?_, ?_, ?_⟩
  · simp only [curl_write, if_neg hne, if_neg hnav]
    omega
  · simp only [curl_write, if_neg hne, if_neg hnav]
    rw [lh, lw]
    simp
  · intro j hj
    simpa only [curl_write, if_neg hne, if_neg hnav] using lc j hj
  · intro i hi hnot
    simpa only [curl_write, if_neg hne, if_neg hnav] using lu i hi hnot

/-! ## The read loop -/

lemma read_loop_zero (C : Nat) (buf : Nat → Nat) (head fuel tail : Nat) :
    read_loop C buf head fuel 0 tail = ([], tail) := by
  cases fuel <;> simp [read_loop]

lemma read_loop_spec (C : Nat) (buf : Nat → Nat) (head : Nat) :
    ∀ (fuel count tail : Nat), count ≤ fuel → 0 < count → head < C → tail < C → tail ≠ head →
      (read_loop C buf head fuel count tail).1.length =
        min count (read_available C head tail) ∧
      (read_loop C buf head fuel count tail).2 =
        (tail + min count (read_available C head tail)) % C ∧
      (∀ j, j < min count (read_available C head tail) →
        (read_loop C buf head fuel count tail).1.getD j 0 = buf ((tail + j) % C)) := by
  intro fuel
  induction fuel with
  | zero => intro count tail hf hc _ _ _; omega
  | succ fuel ih =>
    intro count tail hf hc hh ht hne
    have hc0 : ¬(count = 0) := by omega
    have hC : 0 < C := by omega
    rcases Nat.lt_or_ge tail head with hth | hge
    · -- tail < head: no wrap possible
      have hused : read_available C head tail = head - tail := by
        unfold read_available; rw [if_pos (by omega)]
      rcases Nat.lt_or_ge count (head - tail) with hsmall | hbig
      · -- chunk = count, no break, recursion returns empty
        have hstep : read_loop C buf head (fuel + 1) count tail =
            ((List.range count).map (fun j => buf (tail + j)) ++
              (read_loop C buf head fuel (count - count) (tail + count)).1,
             (read_loop C buf head fuel (count - count) (tail + count)).2) := by
          simp only [read_loop, if_neg hc0]
          rw [show (if tail < head then min count (head - tail) else min count (C - tail)) =
                count from by rw [if_pos hth]; omega]
          rw [show (if C ≤ tail + count then 0 else tail + count) = tail + count from
                by rw [if_neg (by omega)]]
          rw [if_neg (by omega : ¬ tail + count = head)]
        rw [hstep, Nat.sub_self, read_loop_zero]
        have hmin : min count (read_available C head tail) = count := by omega
        refine ⟨by simp [hmin], by rw [hmin, Nat.mod_eq_of_lt (by omega)], ?_⟩
        intro j hj
        rw [hmin] at hj
        rw [List.append_nil, list_getD_range_map _ _ _ hj,
          Nat.mod_eq_of_lt (by omega : tail + j < C)]
      · -- chunk = head - tail = all buffered bytes, break at head
        have hstep : read_loop C buf head (fuel + 1) count tail =
            ((List.range (head - tail)).map (fun j => buf (tail + j)), head) := by
          simp only [read_loop, if_neg hc0]
          rw [show (if tail < head then min count (head - tail) else min count (C - tail)) =
                head - tail from by rw [if_pos hth]; omega]
          rw [show (if C ≤ tail + (head - tail) then 0 else tail + (head - tail)) = head from
                by rw [if_neg (by omega)]; omega]
          rw [if_pos rfl]
        rw [hstep]
        have hmin : min count (read_available C head tail) = head - tail := by omega
        refine ⟨by simp [hmin], by rw [hmin, Nat.mod_eq_of_lt (by omega)]; omega, ?_⟩
        intro j hj
        rw [hmin] at hj
        rw [list_getD_range_map _ _ _ hj, Nat.mod_eq_of_lt (by omega : tail + j < C)]
    · -- head < tail (head ≠ tail): reading may wrap at the end of the buffer
      have hth : head < tail := by omega
      have hused : read_available C head tail = (C - tail) + head := by
        unfold read_available; rw [if_neg (by omega)]
      rcases Nat.lt_or_ge count (C - tail) with hsmall | hbig
      · -- chunk = count, tail2 < C, no break, recursion returns empty
        have hstep : read_loop C buf head (fuel + 1) count tail =
            ((List.range count).map (fun j => buf (tail + j)) ++
              (read_loop C buf head fuel (count - count) (tail + count)).1,
             (read_loop C buf head fuel (count - count) (tail + count)).2) := by
          simp only [read_loop, if_neg hc0]
          rw [show (if tail < head then min count (head - tail) else min count (C - tail)) =
                count from by rw [if_neg (by omega)]; omega]
          rw [show (if C ≤ tail + count then 0 else tail + count) = tail + count from
                by rw [if_neg (by omega)]]
          rw [if_neg (by omega : ¬ tail + count = head)]
        rw [hstep, Nat.sub_self, read_loop_zero]
        have hmin : min count (read_available C head tail) = count := by omega
        refine ⟨by simp [hmin], by rw [hmin, Nat.mod_eq_of_lt (by omega)], ?_⟩
        intro j hj
        rw [hmin] at hj
        rw [List.append_nil, list_getD_range_map _ _ _ hj,
          Nat.mod_eq_of_lt (by omega : tail + j < C)]
      · -- chunk = C - tail: the tail wraps to 0
        have hchunk : (if tail < head then min count (head - tail) else min count (C - tail)) =
            C - tail := by rw [if_neg (by omega)]; omega
        have htail3 : (if C ≤ tail + (C - tail) then 0 else tail + (C - tail)) = 0 := by
          rw [if_pos (by omega)]
        by_cases hhead0 : head = 0
        · -- break at the wrapped position
          have hstep : read_loop C buf head (fuel + 1) count tail =
              ((List.range (C - tail)).map (fun j => buf (tail + j)), 0) := by
            simp only [read_loop, if_neg hc0]
            rw [hchunk, htail3, if_pos hhead0.symm]
          rw [hstep]
          have hmin : min count (read_available C head tail) = C - tail := by omega
          refine ⟨by simp [hmin], ?_, ?_⟩
          · rw [hmin]
            rw [show tail + (C - tail) = C by omega, Nat.mod_self]
          · intro j hj
            rw [hmin] at hj
            rw [list_getD_range_map _ _ _ hj, Nat.mod_eq_of_lt (by omega : tail + j < C)]
        · -- continue from position 0
          have hstep : read_loop C buf head (fuel + 1) count tail =
              ((List.range (C - tail)).map (fun j => buf (tail + j)) ++
                (read_loop C buf head fuel (count - (C - tail)) 0).1,
               (read_loop C buf head fuel (count - (C - tail)) 0).2) := by
            simp only [read_loop, if_neg hc0]
            rw [hchunk, htail3, if_neg (by omega : ¬ (0:Nat) = head)]
          rw [hstep]
          by_cases hrest : count - (C - tail) = 0
          · -- exactly drained the contiguous part
            rw [hrest, read_loop_zero]
            have hmin : min count (read_available C head tail) = count := by omega
            have hcnt : count = C - tail := by omega
            refine ⟨by rw [List.append_nil]
                       simp only [List.length_map, List.length_range, hused]
                       omega, ?_, ?_⟩
            · rw [hmin, hcnt, show tail + (C - tail) = C by omega, Nat.mod_self]
            · intro j hj
              rw [hmin] at hj
              rw [List.append_nil, list_getD_range_map _ _ _ (by omega),
                Nat.mod_eq_of_lt (by omega : tail + j < C)]
          · -- recurse with the remaining count from position 0
            have hused0 : read_available C head 0 = head := by
              unfold read_available; rw [if_pos (by omega)]; omega
            obtain ⟨rl, rt, rc⟩ := ih (count - (C - tail)) 0 (by omega) (by omega) hh hC
              (by omega)
            rw [hused0] at rl rt rc
            have hmin : min count (read_available C head tail) =
                (C - tail) + min (count - (C - tail)) head := by
              rw [hused]; omega
            refine ⟨?_, ?_, ?_⟩
            · simp only [List.length_append, List.length_map, List.length_range, rl, hmin]
            · rw [rt, hmin, show tail + ((C - tail) + min (count - (C - tail)) head) =
                C + min (count - (C - tail)) head from by omega, Nat.add_mod_left,
                Nat.zero_add]
            · intro j hj
              rw [hmin] at hj
              by_cases hjc : j < C - tail
              · rw [list_getD_append_left _ _ _ (by simp; omega),
                  list_getD_range_map _ _ _ hjc,
                  Nat.mod_eq_of_lt (by omega : tail + j < C)]
              · rw [list_getD_append_right _ _ _ (by simp; omega)]
                simp only [List.length_map, List.length_range]
                rw [rc (j - (C - tail)) (by omega)]
                congr 1
                rw [Nat.zero_add,
                  show tail + j = C + (j - (C - tail)) from by omega, Nat.add_mod_left]

/-! ## Operation characterizations -/

/-- Successful-read characterization: exactly
`min count (read_available ...)` bytes are returned in ring order, the tail
moves by that amount modulo the capacity, `m_readpos` advances by it. -/
lemma read_ok (count : Nat) (s : LivestreamState)
    (hc0 : 0 < count) (hcC : count ≤ s.m_buffersize)
    (hh : s.m_bufferhead < s.m_buffersize) (ht : s.m_buffertail < s.m_buffersize)
    (hne : s.m_bufferhead ≠ s.m_buffertail) :
    ∃ out : List Nat,
      read false count s = .ok (out,
        { s with
          m_buffertail := (s.m_buffertail +
            min count (read_available s.m_buffersize s.m_bufferhead s.m_buffertail)) %
              s.m_buffersize,
          m_readpos := s.m_readpos +
            min count (read_available s.m_buffersize s.m_bufferhead s.m_buffertail) }) ∧
      out.length = min count (read_available s.m_buffersize s.m_bufferhead s.m_buffertail) ∧
      (∀ j, j < out.length →
        out.getD j 0 = s.m_buffer ((s.m_buffertail + j) % s.m_buffersize)) := by
  obtain ⟨rl, rt, rc⟩ := read_loop_spec s.m_buffersize s.m_buffer s.m_bufferhead count count
    s.m_buffertail (le_refl _) hc0 hh ht (Ne.symm hne)
  have hnotC : ¬ (s.m_buffersize < count) := by omega
  have hc0' : ¬ (count = 0) := by omega
  refine ⟨(read_loop s.m_buffersize s.m_buffer s.m_bufferhead count count s.m_buffertail).1,
    ?_, rl, ?_⟩
  · simp only [read, Bool.false_eq_true, if_false, if_neg hnotC, if_neg hc0', if_neg hne]
    rw [rt, rl]
  · intro j hj
    rw [rl] at hj
    exact rc j hj

lemma match_lit_starts : ∀ (pre l r : List Char), match_lit pre l = some r →
    pre.isPrefixOf l = true := by
  intro pre
  induction pre with
  | nil => intro l r _; simp [List.isPrefixOf]
  | cons p ps ih =>
    intro l r h
    cases l with
    | nil => simp [match_lit] at h
    | cons c cs =>
      simp only [match_lit] at h
      split_ifs at h with hc
      subst hc
      simp [List.isPrefixOf, ih cs r h]

lemma scan_some_starts (line : List Char) (v : Nat) (h : scanContentRange line = some v) :
    CONTENT_RANGE_HEADER.isPrefixOf line = true := by
  unfold scanContentRange at h
  cases hm : match_lit ("Content-Range:".toList) line with
  | none => rw [hm] at h; exact absurd h (by simp)
  | some r1 => exact match_lit_starts _ _ _ hm

/-- Header-adapter characterization: a nonempty line always yields its byte
count; the three positions are set to the parsed start exactly when the
`sscanf` parse succeeds and are untouched otherwise. -/
lemma curl_responseheaders_spec (line : List Char) (s : LivestreamState)
    (hb : 0 < line.length) :
    (curl_responseheaders line s).1 = line.length ∧
    (∀ v, scanContentRange line = some v →
      (curl_responseheaders line s).2 =
        { s with m_startpos := v, m_readpos := v, m_writepos := v }) ∧
    (scanContentRange line = none → (curl_responseheaders line s).2 = s) := by
  have hb' : ¬ (line.length = 0) := by omega
  by_cases hpre : CONTENT_RANGE_HEADER.isPrefixOf line
  · cases hscan : scanContentRange line with
    | none =>
      refine ⟨?_, ?_, ?_⟩ <;>
        simp [curl_responseheaders, hb', hpre, hscan]
    | some v =>
      refine ⟨?_, ?_, ?_⟩ <;>
        simp [curl_responseheaders, hb', hpre, hscan]
  · have hscan : scanContentRange line = none := by
      cases hscan : scanContentRange line with
      | none => rfl
      | some v => exact absurd (scan_some_starts line v hscan) (by simp [hpre])
    refine ⟨?_, ?_, ?_⟩ <;>
      simp [curl_responseheaders, hb', hpre, hscan]

/-- In-buffer seek characterization, following lines 364-382 verbatim. -/
lemma seek_in_spec (P : Nat) (pos : Nat) (rok : Bool) (t : Transfer) (s : LivestreamState)
    (hne : pos ≠ s.m_readpos) (hj : s.m_workerJoinable = true)
    (hlo : min_buffered s ≤ pos) (hhi : pos ≤ s.m_writepos) :
    seek P pos rok t s = some (.ok (pos,
      { s with
        m_buffertail :=
          if min_buffered s = s.m_startpos then pos - s.m_startpos
          else if s.m_buffersize - s.m_bufferhead ≤ pos - min_buffered s then
            pos - min_buffered s - (s.m_buffersize - s.m_bufferhead)
          else s.m_bufferhead + (pos - min_buffered s),
        m_readpos := pos })) := by
  simp only [seek, if_neg hne, hj, Bool.true_eq_false, if_false, if_pos (And.intro hlo hhi)]

/-! ## Field preservation and monotonicity -/

lemma curl_write_fields (P : Nat) (d : List Nat) (s : LivestreamState) :
    (curl_write P d s).2.m_readpos = s.m_readpos ∧
    (curl_write P d s).2.m_startpos = s.m_startpos ∧
    (curl_write P d s).2.m_buffersize = s.m_buffersize ∧
    (curl_write P d s).2.m_workerJoinable = s.m_workerJoinable ∧
    (curl_write P d s).2.m_curl = s.m_curl ∧
    (curl_write P d s).2.m_stop = s.m_stop ∧
    (curl_write P d s).2.m_curlresult = s.m_curlresult ∧
    s.m_length ≤ (curl_write P d s).2.m_length := by
  simp only [curl_write]
  split_ifs <;> simp <;> omega

lemma curl_responseheaders_fields (line : List Char) (s : LivestreamState) :
    (curl_responseheaders line s).2.m_buffersize = s.m_buffersize ∧
    (curl_responseheaders line s).2.m_bufferhead = s.m_bufferhead ∧
    (curl_responseheaders line s).2.m_buffertail = s.m_buffertail ∧
    (curl_responseheaders line s).2.m_length = s.m_length ∧
    (curl_responseheaders line s).2.m_started = s.m_started ∧
    (curl_responseheaders line s).2.m_workerJoinable = s.m_workerJoinable ∧
    (curl_responseheaders line s).2.m_curl = s.m_curl ∧
    ((curl_responseheaders line s).2.m_readpos = (curl_responseheaders line s).2.m_startpos ∨
      ((curl_responseheaders line s).2.m_readpos = s.m_readpos ∧
       (curl_responseheaders line s).2.m_startpos = s.m_startpos ∧
       (curl_responseheaders line s).2.m_writepos = s.m_writepos)) := by
  simp only [curl_responseheaders]
  split_ifs <;> first
    | simp
    | (rename_i h1 h2; cases hscan : scanContentRange line <;> simp [hscan])

lemma deliver_headers_rp_sp (hs : List (List Char)) :
    ∀ s : LivestreamState, s.m_readpos = s.m_startpos →
      (deliver_headers hs s).m_readpos = (deliver_headers hs s).m_startpos := by
  induction hs with
  | nil => intro s h; simpa [deliver_headers]
  | cons l ls ih =>
    intro s h
    have hf := curl_responseheaders_fields l s
    rcases hf.2.2.2.2.2.2.2 with h1 | h1
    · exact ih _ h1
    · exact ih _ (by rw [h1.1, h1.2.1]; exact h)

lemma deliver_headers_length (hs : List (List Char)) :
    ∀ s : LivestreamState, (deliver_headers hs s).m_length = s.m_length := by
  induction hs with
  | nil => intro s; simp [deliver_headers]
  | cons l ls ih =>
    intro s
    have hf := curl_responseheaders_fields l s
    simpa [deliver_headers] using (ih ((curl_responseheaders l s).2)).trans hf.2.2.2.1

lemma deliver_chunks_rp_sp_len (P : Nat) (cs : List (List Nat)) :
    ∀ s : LivestreamState,
      (deliver_chunks P cs s).1.m_readpos = s.m_readpos ∧
      (deliver_chunks P cs s).1.m_startpos = s.m_startpos ∧
      s.m_length ≤ (deliver_chunks P cs s).1.m_length := by
  induction cs with
  | nil => intro s; simp [deliver_chunks]
  | cons c rest ih =>
    intro s
    have hw := curl_write_fields P c s
    by_cases hp : (curl_write P c s).1 = CURL_WRITEFUNC_PAUSE
    · simp only [deliver_chunks, if_pos hp]
      exact ⟨hw.1, hw.2.1, hw.2.2.2.2.2.2.2⟩
    · simp only [deliver_chunks, if_neg hp]
      have := ih ((curl_write P c s).2)
      exact ⟨this.1.trans hw.1, this.2.1.trans hw.2.1,
        le_trans hw.2.2.2.2.2.2.2 this.2.2⟩

lemma transfer_run_rp_sp_len (P : Nat) (t : Transfer) (s : LivestreamState)
    (h : s.m_readpos = s.m_startpos) :
    (transfer_run P t s).1.m_readpos = (transfer_run P t s).1.m_startpos ∧
    s.m_length ≤ (transfer_run P t s).1.m_length := by
  have hh : (deliver_headers t.headers { s with m_curlresult := 0, m_curlerr := [] }).m_readpos
      = (deliver_headers t.headers
          { s with m_curlresult := 0, m_curlerr := [] }).m_startpos :=
    deliver_headers_rp_sp t.headers _ h
  have hhl := deliver_headers_length t.headers { s with m_curlresult := 0, m_curlerr := [] }
  have hc := deliver_chunks_rp_sp_len P t.chunks
    (deliver_headers t.headers { s with m_curlresult := 0, m_curlerr := [] })
  simp only [transfer_run]
  split_ifs with hif
  all_goals dsimp only
  all_goals exact ⟨hc.1.trans (hh.trans hc.2.1.symm), (le_of_eq hhl.symm).trans hc.2.2⟩

lemma transfer_run_length (P : Nat) (t : Transfer) (s : LivestreamState) :
    s.m_length ≤ (transfer_run P t s).1.m_length := by
  have hhl := deliver_headers_length t.headers { s with m_curlresult := 0, m_curlerr := [] }
  have hc := (deliver_chunks_rp_sp_len P t.chunks
    (deliver_headers t.headers { s with m_curlresult := 0, m_curlerr := [] })).2.2
  simp only [transfer_run]
  split_ifs
  all_goals dsimp only
  all_goals exact (le_of_eq hhl.symm).trans hc

lemma transfer_run_err (P : Nat) (t : Transfer) (s : LivestreamState)
    (hst : (transfer_run P t s).2.1 = false) (hres : t.result ≠ 0) :
    (transfer_run P t s).1.m_curlerr = t.errtext := by
  simp only [transfer_run] at hst ⊢
  split_ifs at hst ⊢ with h1
  rfl

lemma start_length (P : Nat) (url : Option (List Char)) (ok : Bool) (t : Transfer)
    (r : Nat) (s s2 : LivestreamState)
    (hs : start P url ok t s = some (.ok (r, s2))) : s.m_length ≤ s2.m_length := by
  simp only [start] at hs
  split_ifs at hs with h1 h2 h3 h4 h5 <;> try simp at hs
  all_goals rw [← hs.2]
  all_goals exact transfer_run_length P t { s with m_curl := true, m_workerJoinable := true }

lemma seek_length (P pos : Nat) (rok : Bool) (t : Transfer)
    (r : Nat) (s s2 : LivestreamState)
    (hs : seek P pos rok t s = some (.ok (r, s2))) : s.m_length ≤ s2.m_length := by
  by_cases h1 : pos = s.m_readpos
  · rw [seek, if_pos h1] at hs
    simp only [Option.some.injEq, Except.ok.injEq, Prod.mk.injEq] at hs
    rw [← hs.2]
  · by_cases h2 : s.m_workerJoinable = true
    · by_cases h3 : min_buffered s ≤ pos ∧ pos ≤ s.m_writepos
      · rw [seek_in_spec P pos rok t s h1 h2 h3.1 h3.2] at hs
        simp only [Option.some.injEq, Except.ok.injEq, Prod.mk.injEq] at hs
        rw [← hs.2]
      · simp only [seek] at hs
        rw [if_neg h1, if_neg (by simp [h2]), if_neg h3] at hs
        simp only [reset_stream_state, if_neg (by simp : ¬ (false = true))] at hs
        by_cases h4 : rok = false
        · rw [if_pos h4] at hs
          exact absurd hs (by simp)
        · rw [if_neg h4] at hs
          split_ifs at hs <;> try simp at hs
          all_goals rw [← hs.2]
          all_goals exact transfer_run_length P t ({ s with
            m_started := false, m_paused := false, m_stop := false,
            m_startpos := 0, m_readpos := 0, m_writepos := 0,
            m_bufferhead := 0, m_buffertail := 0, m_workerJoinable := true })
    · rw [seek, if_neg h1, if_pos (by simp [Bool.not_eq_true] at h2; exact h2)] at hs
      exact absurd hs (by simp)

/-! ## Invariant preservation -/

lemma read_available_lt (C head tail : Nat) (hh : head < C) (ht : tail < C) :
    read_available C head tail < C := by
  unfold read_available; split_ifs <;> omega

lemma read_available_advance (C head tail n : Nat) (hh : head < C) (ht : tail < C)
    (hn : read_available C head tail + n < C) :
    read_available C ((head + n) % C) tail = read_available C head tail + n := by
  have hmod : (head + n) % C = if head + n < C then head + n else head + n - C :=
    mod_char _ _ (by unfold read_available at hn; split_ifs at hn <;> omega)
  rw [hmod]
  unfold read_available at *
  split_ifs at * <;> omega

lemma read_available_retreat (C head tail r : Nat) (hh : head < C) (ht : tail < C)
    (hr : r ≤ read_available C head tail) :
    read_available C head ((tail + r) % C) = read_available C head tail - r := by
  have hrC : r < C := lt_of_le_of_lt hr (read_available_lt C head tail hh ht)
  have hmod : (tail + r) % C = if tail + r < C then tail + r else tail + r - C :=
    mod_char _ _ (by omega)
  rw [hmod]
  unfold read_available at *
  split_ifs at * <;> omega

lemma align_up_val_ge (value alignment : Nat) : value ≤ align_up_val value alignment := by
  unfold align_up_val; split_ifs <;> omega

/-- On the non-wrapping range the machine rounding agrees with the unbounded
one: for `1 ≤ a` and `v ≤ 2 ^ 64 - a` the `size_t` sum stays below `2 ^ 64`. -/
lemma align_up_val_w_eq (v a : Nat) (ha : 1 ≤ a) (hb : v ≤ 2 ^ 64 - a) :
    align_up_val_w v a = align_up_val v a := by
  unfold align_up_val_w align_up_val
  by_cases hv : v = 0
  · rw [if_pos hv, if_pos hv]
  · rw [if_neg hv, if_neg hv]
    have hrem : v % a < a := Nat.mod_lt v (by omega)
    by_cases hz : v % a = 0
    · rw [hz, Nat.sub_zero, Nat.mod_self, Nat.add_zero]
      exact Nat.mod_eq_of_lt (by omega)
    · rw [Nat.mod_eq_of_lt (show a - v % a < a by omega)]
      exact Nat.mod_eq_of_lt (by omega)

/-- A state whose ring and positions are zeroed and whose transfer has not
started satisfies the invariant. -/
lemma Inv_mk (s : LivestreamState) (hC : 0 < s.m_buffersize) (hh : s.m_bufferhead = 0)
    (ht : s.m_buffertail = 0) (hsp : s.m_startpos = 0) (hrp : s.m_readpos = 0)
    (hwp : s.m_writepos = 0) (hst : s.m_started = false) : Inv s := by
  refine ⟨hC, by omega, by omega, by omega, by omega, ?_, ?_, ?_, ?_⟩
  · rw [hh, ht, hrp, hwp]; simp [read_available]
  · rw [hh, hwp, hsp]; simp
  · intro _; exact ⟨hh, ht, by omega, by omega⟩
  · intro _; exact hst

lemma Inv_iff_empty (s : LivestreamState) (h : Inv s) :
    s.m_bufferhead = s.m_buffertail ↔ s.m_writepos = s.m_readpos := by
  obtain ⟨hC, hh, ht, h1, h2, hu, _, _, _⟩ := h
  unfold read_available at hu
  constructor
  · intro he; rw [he] at hu; split_ifs at hu <;> omega
  · intro he; rw [he] at hu; split_ifs at hu <;> omega

lemma Inv_write (P : Nat) (d : List Nat) (s : LivestreamState) (hP : 0 < P)
    (h : Inv s) (hj : s.m_workerJoinable = true) : Inv ((curl_write P d s).2) := by
  obtain ⟨hC, hh, ht, hsr, hrw, hu, hcong, hst, hjs⟩ := h
  by_cases hd : d.length = 0
  · simp only [curl_write, if_pos hd]
    exact ⟨hC, hh, ht, hsr, hrw, hu, hcong, hst, hjs⟩
  · by_cases hav : ring_available s.m_buffersize s.m_bufferhead s.m_buffertail < d.length + P
    · rw [curl_write_pause P d s (by omega) hav]
      exact ⟨hC, hh, ht, hsr, hrw, hu, hcong, hst, hjs⟩
    · have hacc := curl_write_accept P d s hP (by omega) hh ht (by omega)
      rw [hacc.2.1]
      have hsum := read_available_add_ring_available s.m_buffersize s.m_bufferhead
        s.m_buffertail hh ht
      have hbound : read_available s.m_buffersize s.m_bufferhead s.m_buffertail + d.length
          < s.m_buffersize := by omega
      unfold Inv
      dsimp only
      refine ⟨hC, Nat.mod_lt _ hC, ht, hsr, by omega, ?_, ?_, ?_, ?_⟩
      · rw [read_available_advance s.m_buffersize s.m_bufferhead s.m_buffertail d.length
          hh ht hbound]
        omega
      · rw [hcong, Nat.mod_add_mod]
        congr 1
        omega
      · intro hco; exact absurd hco (by simp)
      · intro hco; rw [hj] at hco; exact absurd hco (by simp)

lemma Inv_read (count : Nat) (out : List Nat) (s s2 : LivestreamState)
    (h : Inv s) (hr : read false count s = .ok (out, s2)) : Inv s2 := by
  obtain ⟨hC, hh, ht, hsr, hrw, hu, hcong, hst, hjs⟩ := h
  by_cases hbig : s.m_buffersize < count
  · rw [read, if_neg (by simp), if_pos hbig] at hr
    exact absurd hr (by simp)
  · by_cases hzero : count = 0
    · rw [read, if_neg (by simp), if_neg hbig, if_pos hzero] at hr
      simp only [Except.ok.injEq, Prod.mk.injEq] at hr
      rw [← hr.2]
      exact ⟨hC, hh, ht, hsr, hrw, hu, hcong, hst, hjs⟩
    · by_cases hempty : s.m_bufferhead = s.m_buffertail
      · rw [read, if_neg (by simp), if_neg hbig, if_neg hzero, if_pos hempty] at hr
        simp only [Except.ok.injEq, Prod.mk.injEq] at hr
        rw [← hr.2]
        exact ⟨hC, hh, ht, hsr, hrw, hu, hcong, hst, hjs⟩
      · obtain ⟨out2, hro, hl, _⟩ := read_ok count s (by omega) (by omega) hh ht hempty
        rw [hro] at hr
        simp only [Except.ok.injEq, Prod.mk.injEq] at hr
        rw [← hr.2]
        have hmin : min count (read_available s.m_buffersize s.m_bufferhead s.m_buffertail)
            ≤ read_available s.m_buffersize s.m_bufferhead s.m_buffertail := min_le_right _ _
        unfold Inv
        dsimp only
        refine ⟨hC, hh, Nat.mod_lt _ hC, by omega, by omega, ?_, hcong, ?_, hjs⟩
        · rw [read_available_retreat s.m_buffersize s.m_bufferhead s.m_buffertail _ hh ht hmin]
          omega
        · intro hco
          obtain ⟨e1, e2, _, _⟩ := hst hco
          exact absurd (e1.trans e2.symm) hempty

lemma Inv_header (line : List Char) (s : LivestreamState)
    (h : Inv s) (hstarted : s.m_started = false) : Inv ((curl_responseheaders line s).2) := by
  obtain ⟨hC, hh, ht, hsr, hrw, hu, hcong, hst, hjs⟩ := h
  obtain ⟨e1, e2, e3, e4⟩ := hst hstarted
  by_cases hb : line.length = 0
  · unfold curl_responseheaders
    rw [if_pos hb]
    exact ⟨hC, hh, ht, hsr, hrw, hu, hcong, hst, hjs⟩
  · obtain ⟨_, hsome, hnone⟩ := curl_responseheaders_spec line s (by omega)
    cases hscan : scanContentRange line with
    | none =>
      rw [hnone hscan]
      exact ⟨hC, hh, ht, hsr, hrw, hu, hcong, hst, hjs⟩
    | some v =>
      rw [hsome v hscan]
      refine ⟨hC, hh, ht, le_refl _, le_refl _, ?_, ?_, ?_, ?_⟩
      · show v - v = _
        rw [e1, e2]
        simp [read_available]
      · show s.m_bufferhead = (v - v) % s.m_buffersize
        rw [e1]
        simp
      · intro _
        exact ⟨e1, e2, rfl, rfl⟩
      · intro hco
        exact hjs hco

lemma Inv_spawn (s : LivestreamState) (h : Inv s) :
    Inv { s with m_workerJoinable := true, m_curl := true, m_curlresult := 0,
                 m_curlerr := [] } := by
  obtain ⟨hC, hh, ht, hsr, hrw, hu, hcong, hst, _⟩ := h
  unfold Inv
  dsimp only
  exact ⟨hC, hh, ht, hsr, hrw, hu, hcong, hst, fun hco => absurd hco (by simp)⟩

lemma Inv_setup (s : LivestreamState) (h : Inv s) :
    Inv { s with m_curl := true, m_workerJoinable := true } := by
  obtain ⟨hC, hh, ht, hsr, hrw, hu, hcong, hst, _⟩ := h
  unfold Inv
  dsimp only
  exact ⟨hC, hh, ht, hsr, hrw, hu, hcong, hst, fun hco => absurd hco (by simp)⟩

lemma Inv_entry (s : LivestreamState) (h : Inv s) :
    Inv { s with m_curlresult := 0, m_curlerr := [] } := by
  obtain ⟨hC, hh, ht, hsr, hrw, hu, hcong, hst, hjs⟩ := h
  unfold Inv
  dsimp only
  exact ⟨hC, hh, ht, hsr, hrw, hu, hcong, hst, hjs⟩

lemma Inv_complete (s : LivestreamState) (h : Inv s) (hj : s.m_workerJoinable = true)
    (res : Nat) (err : List Char) :
    Inv { s with m_curlresult := res, m_started := true, m_curlerr := err } := by
  obtain ⟨hC, hh, ht, hsr, hrw, hu, hcong, _, _⟩ := h
  unfold Inv
  dsimp only
  refine ⟨hC, hh, ht, hsr, hrw, hu, hcong, fun hco => absurd hco (by simp), fun hco => ?_⟩
  rw [hj] at hco
  exact absurd hco (by simp)

lemma deliver_headers_inv (hs : List (List Char)) :
    ∀ s : LivestreamState, Inv s → s.m_started = false →
      Inv (deliver_headers hs s) ∧ (deliver_headers hs s).m_started = false ∧
      (deliver_headers hs s).m_workerJoinable = s.m_workerJoinable := by
  induction hs with
  | nil => intro s h hst; exact ⟨h, hst, rfl⟩
  | cons l ls ih =>
    intro s h hst
    have hf := curl_responseheaders_fields l s
    have hstep : deliver_headers (l :: ls) s = deliver_headers ls ((curl_responseheaders l s).2) :=
      rfl
    rw [hstep]
    have hst2 : ((curl_responseheaders l s).2).m_started = false := by
      rw [hf.2.2.2.2.1]; exact hst
    obtain ⟨a, b, c⟩ := ih ((curl_responseheaders l s).2) (Inv_header l s h hst) hst2
    exact ⟨a, b, c.trans hf.2.2.2.2.2.1⟩

lemma deliver_chunks_inv (P : Nat) (hP : 0 < P) (cs : List (List Nat)) :
    ∀ s : LivestreamState, Inv s → s.m_workerJoinable = true →
      Inv (deliver_chunks P cs s).1 ∧ (deliver_chunks P cs s).1.m_workerJoinable = true := by
  induction cs with
  | nil => intro s h hj; exact ⟨h, hj⟩
  | cons c rest ih =>
    intro s h hj
    have hw := curl_write_fields P c s
    have hj2 : ((curl_write P c s).2).m_workerJoinable = true := by
      rw [hw.2.2.2.1]; exact hj
    by_cases hp : (curl_write P c s).1 = CURL_WRITEFUNC_PAUSE
    · simp only [deliver_chunks, if_pos hp]
      exact ⟨Inv_write P c s hP h hj, hj2⟩
    · simp only [deliver_chunks, if_neg hp]
      exact ih ((curl_write P c s).2) (Inv_write P c s hP h hj) hj2

lemma Inv_transfer_run (P : Nat) (hP : 0 < P) (t : Transfer) (s : LivestreamState)
    (h : Inv s) (hst : s.m_started = false) (hj : s.m_workerJoinable = true) :
    Inv (transfer_run P t s).1 := by
  have h0 : Inv { s with m_curlresult := 0, m_curlerr := [] } := Inv_entry s h
  obtain ⟨h1, hst1, hj1⟩ := deliver_headers_inv t.headers _ h0 hst
  obtain ⟨h2, hj2⟩ := deliver_chunks_inv P hP t.chunks _ h1 (hj1.trans hj)
  simp only [transfer_run]
  split_ifs with hif
  · exact h2
  · exact Inv_complete _ h2 hj2 t.result _
  · exact Inv_complete _ h2 hj2 t.result _

lemma Inv_respawn (s : LivestreamState) (h : Inv s) :
    Inv { s with m_workerJoinable := true } := by
  obtain ⟨hC, hh, ht, hsr, hrw, hu, hcong, hst, _⟩ := h
  unfold Inv
  dsimp only
  exact ⟨hC, hh, ht, hsr, hrw, hu, hcong, hst, fun hco => absurd hco (by simp)⟩

lemma Inv_start (P : Nat) (hP : 0 < P) (url : Option (List Char)) (ok : Bool) (t : Transfer)
    (r : Nat) (s s2 : LivestreamState) (h : Inv s)
    (hs : start P url ok t s = some (.ok (r, s2))) : Inv s2 := by
  have hjs := h.2.2.2.2.2.2.2.2
  simp only [start] at hs
  split_ifs at hs with h1 h2 h3 h4 h5 <;> try simp at hs
  all_goals
    have hjoin : s.m_workerJoinable = false := by
      cases hq : s.m_workerJoinable
      · rfl
      · exact absurd hq h2
  all_goals rw [← hs.2]
  all_goals exact Inv_transfer_run P hP t _ (Inv_setup s h) (hjs hjoin) rfl

lemma Inv_reset (s s2 : LivestreamState) (hC : 0 < s.m_buffersize)
    (hr : reset_stream_state s = .ok s2) : Inv s2 := by
  unfold reset_stream_state at hr
  by_cases hq : s.m_workerJoinable = true
  · rw [if_pos hq] at hr
    exact Except.noConfusion hr
  · rw [if_neg hq] at hr
    simp only [Except.ok.injEq] at hr
    rw [← hr]
    exact Inv_mk _ hC rfl rfl rfl rfl rfl rfl

lemma Inv_stop (jr : Nat) (je : List Char) (r : Nat) (s s2 : LivestreamState)
    (h : Inv s) (hs : stop jr je s = .ok (r, s2)) : Inv s2 := by
  simp only [stop] at hs
  by_cases h1 : s.m_workerJoinable = false
  · rw [if_pos h1] at hs
    simp only [Except.ok.injEq, Prod.mk.injEq] at hs
    rw [← hs.2]
    exact h
  · rw [if_neg h1] at hs
    simp only [reset_stream_state, if_neg (by simp : ¬ (false = true))] at hs
    simp only [Except.ok.injEq, Prod.mk.injEq] at hs
    rw [← hs.2]
    exact Inv_mk _ h.1 rfl rfl rfl rfl rfl rfl

lemma Inv_seek (P : Nat) (hP : 0 < P) (pos : Nat) (rok : Bool) (t : Transfer)
    (r : Nat) (s s2 : LivestreamState) (h : Inv s) (hsafe : seek_safe s pos)
    (hs : seek P pos rok t s = some (.ok (r, s2))) : Inv s2 := by
  by_cases h1 : pos = s.m_readpos
  · rw [seek, if_pos h1] at hs
    simp only [Option.some.injEq, Except.ok.injEq, Prod.mk.injEq] at hs
    rw [← hs.2]
    exact h
  · by_cases h2 : s.m_workerJoinable = true
    · by_cases h3 : min_buffered s ≤ pos ∧ pos ≤ s.m_writepos
      · -- in-buffer seek
        obtain ⟨hC, hh, ht, hsr, hrw, hu, hcong, hst, hjs⟩ := h
        rw [seek_in_spec P pos rok t s h1 h2 h3.1 h3.2] at hs
        simp only [Option.some.injEq, Except.ok.injEq, Prod.mk.injEq] at hs
        rw [← hs.2]
        have hstartfacts : s.m_started = true := by
          cases hq : s.m_started
          · obtain ⟨e1, e2, e3, e4⟩ := hst hq
            have hmb : min_buffered s = s.m_startpos := by
              unfold min_buffered
              rw [if_neg (by omega)]
            exact absurd (by omega : pos = s.m_readpos) h1
          · rfl
        unfold Inv
        dsimp only
        by_cases hw : min_buffered s = s.m_startpos
        · -- window not wrapped: writepos - startpos <= C
          have hwle : s.m_writepos - s.m_startpos ≤ s.m_buffersize := by
            unfold min_buffered at hw
            split_ifs at hw <;> omega
          have hmb : min_buffered s = s.m_startpos := hw
          rw [if_pos hw]
          rcases Nat.lt_or_ge (s.m_writepos - s.m_startpos) s.m_buffersize with hlt | hge
          · -- strictly below capacity
            have hhead : s.m_bufferhead = s.m_writepos - s.m_startpos := by
              rw [hcong, Nat.mod_eq_of_lt hlt]
            refine ⟨hC, hh, by omega, by rw [hmb] at h3; omega, h3.2, ?_, hcong, ?_, ?_⟩
            · unfold read_available
              rw [if_pos (by rw [hmb] at h3; omega)]
              rw [hmb] at h3
              omega
            · intro hco
              rw [hstartfacts] at hco
              exact absurd hco (by simp)
            · intro hco
              rw [h2] at hco
              exact absurd hco (by simp)
          · -- window exactly at capacity: the safe condition bites
            have hweq : s.m_writepos - s.m_startpos = s.m_buffersize := by omega
            have hpos : pos ≠ s.m_writepos := by
              rcases hsafe with hs1 | hs2
              · omega
              · exact hs2.2 hweq
            have hposlo : pos ≠ s.m_startpos := by
              rcases hsafe with hs1 | hs2
              · omega
              · intro hcontra
                exact hs2.1 (by omega)
            have hhead : s.m_bufferhead = 0 := by
              rw [hcong, hweq, Nat.mod_self]
            rw [hmb] at h3
            refine ⟨hC, hh, by omega, by omega, h3.2, ?_, hcong, ?_, ?_⟩
            · unfold read_available
              rw [hhead]
              rw [if_neg (by omega)]
              omega
            · intro hco
              rw [hstartfacts] at hco
              exact absurd hco (by simp)
            · intro hco
              rw [h2] at hco
              exact absurd hco (by simp)
        · -- wrapped window: minpos = writepos - C
          have hwgt : s.m_buffersize < s.m_writepos - s.m_startpos := by
            unfold min_buffered at hw
            split_ifs at hw with hq
            · exact hq
            · exact absurd rfl hw
          have hmb : min_buffered s = s.m_writepos - s.m_buffersize := by
            unfold min_buffered
            rw [if_pos hwgt]
          have hposlo : s.m_writepos - s.m_buffersize < pos := by
            rcases hsafe with hs1 | hs2
            · omega
            · rw [hmb] at h3
              rcases Nat.lt_or_ge (s.m_writepos - s.m_buffersize) pos with hq | hq
              · exact hq
              · exact absurd (by omega : pos = s.m_writepos - s.m_buffersize) hs2.1
          rw [if_neg hw]
          rw [hmb] at h3
          refine ⟨hC, hh, ?_, by omega, h3.2, ?_, hcong, ?_, ?_⟩
          · split_ifs <;> omega
          · unfold read_available
            split_ifs <;> omega
          · intro hco
            rw [hstartfacts] at hco
            exact absurd hco (by simp)
          · intro hco
            rw [h2] at hco
            exact absurd hco (by simp)
      · -- out-of-buffer: stop, reset, restart
        have hreset := Inv_reset { s with m_workerJoinable := false } _ h.1 rfl
        simp only [seek] at hs
        rw [if_neg h1, if_neg (by simp [h2]), if_neg h3] at hs
        simp only [reset_stream_state, if_neg (by simp : ¬ (false = true))] at hs
        by_cases h4 : rok = false
        · rw [if_pos h4] at hs
          exact absurd hs (by simp)
        · rw [if_neg h4] at hs
          have hrun := Inv_transfer_run P hP t _ (Inv_respawn _ hreset) rfl rfl
          split_ifs at hs <;> try simp at hs
          all_goals rw [← hs.2]
          all_goals exact hrun
    · rw [seek, if_neg h1, if_pos (by simp [Bool.not_eq_true] at h2; exact h2)] at hs
      exact absurd hs (by simp)

/-- Every state reachable with `seek_safe`-restricted in-buffer seeks satisfies
the ring invariant. -/
lemma Reach_inv (P : Nat) (hP : 0 < P) (s : LivestreamState)
    (hre : Reach P false s) : Inv s := by
  induction hre with
  | init req =>
    refine Inv_mk _ ?_ rfl rfl rfl rfl rfl rfl
    have := align_up_val_ge (req + P) 65536
    show 0 < align_up_val (req + P) 65536
    omega
  | spawn s h hj ih => exact Inv_spawn s ih
  | header s line h hj hst ih => exact Inv_header line s ih hst
  | write s d h hj ih => exact Inv_write P d s hP ih hj
  | readStep s count out s2 h hr ih => exact Inv_read count out s s2 ih hr
  | startStep s url ok t r s2 h hs ih => exact Inv_start P hP url ok t r s s2 ih hs
  | seekStep s pos rok t r s2 h hsafe hs ih =>
    exact Inv_seek P hP pos rok t r s s2 ih (hsafe.resolve_left (by simp)) hs
  | stopStep s jr je r s2 h hs ih => exact Inv_stop jr je r s s2 ih hs

/-! ## Claim C7 -/

/-- The boundary run, parametric in the two delivered 32768-byte chunks:
spawn, write `d1`, read it back, write `d2` (head wraps to 0,
`writepos - startpos = 65536 = C` exactly), then `seek 65536` - an in-buffer
seek - writes `tail = 65536 = C`, outside `[0, C)`, in a state with no unread
byte (`writepos = readpos`) yet `head = 0 ≠ tail`. -/
lemma c7_chain (d1 d2 : List Nat) (h1 : d1.length = 32768) (h2 : d2.length = 32768) :
    ∃ (out : List Nat) (s3 s5 : LivestreamState),
      read false 32768 (curl_write 32768 d1 c7s1).2 = .ok (out, s3) ∧
      seek 32768 65536 true ⟨[], [], 0, []⟩ (curl_write 32768 d2 s3).2 =
        some (.ok (65536, s5)) ∧
      Reach 32768 true s5 ∧
      s5.m_buffersize = 65536 ∧ s5.m_buffertail = 65536 ∧ s5.m_bufferhead = 0 ∧
      s5.m_writepos = 65536 ∧ s5.m_readpos = 65536 := by
  have b1 : c7s1.m_bufferhead = 0 := rfl
  have b2 : c7s1.m_buffertail = 0 := rfl
  have b3 : c7s1.m_buffersize = 65536 := by decide
  have b4 : c7s1.m_writepos = 0 := rfl
  have b5 : c7s1.m_readpos = 0 := rfl
  have b6 : c7s1.m_startpos = 0 := rfl
  have b7 : c7s1.m_workerJoinable = true := rfl
  have bra : ring_available c7s1.m_buffersize c7s1.m_bufferhead c7s1.m_buffertail = 65536 := by
    decide
  have hw1 := curl_write_accept 32768 d1 c7s1 (by omega) (by omega)
    (by rw [b1, b3]; omega) (by rw [b2, b3]; omega) (by rw [bra, h1])
  have e2C : (curl_write 32768 d1 c7s1).2.m_buffersize = 65536 :=
    (congrArg LivestreamState.m_buffersize hw1.2.1).trans b3
  have e2h : (curl_write 32768 d1 c7s1).2.m_bufferhead = 32768 := by
    refine (congrArg LivestreamState.m_bufferhead hw1.2.1).trans ?_
    show (c7s1.m_bufferhead + d1.length) % c7s1.m_buffersize = 32768
    rw [b1, b3, h1]
  have e2t : (curl_write 32768 d1 c7s1).2.m_buffertail = 0 :=
    (congrArg LivestreamState.m_buffertail hw1.2.1).trans b2
  have e2wp : (curl_write 32768 d1 c7s1).2.m_writepos = 32768 := by
    refine (congrArg LivestreamState.m_writepos hw1.2.1).trans ?_
    show c7s1.m_writepos + d1.length = 32768
    rw [b4, h1]
  have e2rp : (curl_write 32768 d1 c7s1).2.m_readpos = 0 :=
    (congrArg LivestreamState.m_readpos hw1.2.1).trans b5
  have e2sp : (curl_write 32768 d1 c7s1).2.m_startpos = 0 :=
    (congrArg LivestreamState.m_startpos hw1.2.1).trans b6
  have e2j : (curl_write 32768 d1 c7s1).2.m_workerJoinable = true :=
    (congrArg LivestreamState.m_workerJoinable hw1.2.1).trans b7
  -- the consumer reads the 32768 buffered bytes
  obtain ⟨out, hro, hl, _⟩ := read_ok 32768 ((curl_write 32768 d1 c7s1).2)
    (by omega) (by rw [e2C]; omega) (by rw [e2h, e2C]; omega) (by rw [e2t, e2C]; omega)
    (by rw [e2h, e2t]; omega)
  have hX : ((curl_write 32768 d1 c7s1).2.m_buffertail +
      min 32768 (read_available (curl_write 32768 d1 c7s1).2.m_buffersize
        (curl_write 32768 d1 c7s1).2.m_bufferhead
        (curl_write 32768 d1 c7s1).2.m_buffertail)) %
      (curl_write 32768 d1 c7s1).2.m_buffersize = 32768 := by
    rw [e2h, e2t, e2C]; decide
  have hY : (curl_write 32768 d1 c7s1).2.m_readpos +
      min 32768 (read_available (curl_write 32768 d1 c7s1).2.m_buffersize
        (curl_write 32768 d1 c7s1).2.m_bufferhead
        (curl_write 32768 d1 c7s1).2.m_buffertail) = 32768 := by
    rw [e2h, e2t, e2rp, e2C]; decide
  rw [hX, hY] at hro
  -- facts about the post-read state
  have f_h : ({ (curl_write 32768 d1 c7s1).2 with
      m_buffertail := 32768, m_readpos := 32768 }).m_bufferhead = 32768 := e2h
  have f_t : ({ (curl_write 32768 d1 c7s1).2 with
      m_buffertail := 32768, m_readpos := 32768 }).m_buffertail = 32768 := rfl
  have f_C : ({ (curl_write 32768 d1 c7s1).2 with
      m_buffertail := 32768, m_readpos := 32768 }).m_buffersize = 65536 := e2C
  have f_wp : ({ (curl_write 32768 d1 c7s1).2 with
      m_buffertail := 32768, m_readpos := 32768 }).m_writepos = 32768 := e2wp
  have f_rp : ({ (curl_write 32768 d1 c7s1).2 with
      m_buffertail := 32768, m_readpos := 32768 }).m_readpos = 32768 := rfl
  have f_sp : ({ (curl_write 32768 d1 c7s1).2 with
      m_buffertail := 32768, m_readpos := 32768 }).m_startpos = 0 := e2sp
  have f_j : ({ (curl_write 32768 d1 c7s1).2 with
      m_buffertail := 32768, m_readpos := 32768 }).m_workerJoinable = true := e2j
  have f_ra : ring_available
      ({ (curl_write 32768 d1 c7s1).2 with
        m_buffertail := 32768, m_readpos := 32768 }).m_buffersize
      ({ (curl_write 32768 d1 c7s1).2 with
        m_buffertail := 32768, m_readpos := 32768 }).m_bufferhead
      ({ (curl_write 32768 d1 c7s1).2 with
        m_buffertail := 32768, m_readpos := 32768 }).m_buffertail = 65536 := by
    rw [f_h, f_t, f_C]
    decide
  -- the transfer delivers 32768 further bytes
  have hw2 := curl_write_accept 32768 d2
    ({ (curl_write 32768 d1 c7s1).2 with m_buffertail := 32768, m_readpos := 32768 })
    (by omega) (by omega) (by rw [f_h, f_C]; omega) (by rw [f_t, f_C]; omega)
    (by rw [f_ra, h2])
  have g_C : (curl_write 32768 d2 ({ (curl_write 32768 d1 c7s1).2 with
      m_buffertail := 32768, m_readpos := 32768 })).2.m_buffersize = 65536 :=
    (congrArg LivestreamState.m_buffersize hw2.2.1).trans f_C
  have g_h : (curl_write 32768 d2 ({ (curl_write 32768 d1 c7s1).2 with
      m_buffertail := 32768, m_readpos := 32768 })).2.m_bufferhead = 0 := by
    refine (congrArg LivestreamState.m_bufferhead hw2.2.1).trans ?_
    show (({ (curl_write 32768 d1 c7s1).2 with
        m_buffertail := 32768, m_readpos := 32768 }).m_bufferhead + d2.length) %
      ({ (curl_write 32768 d1 c7s1).2 with
        m_buffertail := 32768, m_readpos := 32768 }).m_buffersize = 0
    rw [f_h, f_C, h2]
  have g_t : (curl_write 32768 d2 ({ (curl_write 32768 d1 c7s1).2 with
      m_buffertail := 32768, m_readpos := 32768 })).2.m_buffertail = 32768 :=
    (congrArg LivestreamState.m_buffertail hw2.2.1).trans f_t
  have g_wp : (curl_write 32768 d2 ({ (curl_write 32768 d1 c7s1).2 with
      m_buffertail := 32768, m_readpos := 32768 })).2.m_writepos = 65536 := by
    refine (congrArg LivestreamState.m_writepos hw2.2.1).trans ?_
    show ({ (curl_write 32768 d1 c7s1).2 with
        m_buffertail := 32768, m_readpos := 32768 }).m_writepos + d2.length = 65536
    rw [f_wp, h2]
  have g_rp : (curl_write 32768 d2 ({ (curl_write 32768 d1 c7s1).2 with
      m_buffertail := 32768, m_readpos := 32768 })).2.m_readpos = 32768 :=
    (congrArg LivestreamState.m_readpos hw2.2.1).trans f_rp
  have g_sp : (curl_write 32768 d2 ({ (curl_write 32768 d1 c7s1).2 with
      m_buffertail := 32768, m_readpos := 32768 })).2.m_startpos = 0 :=
    (congrArg LivestreamState.m_startpos hw2.2.1).trans f_sp
  have g_j : (curl_write 32768 d2 ({ (curl_write 32768 d1 c7s1).2 with
      m_buffertail := 32768, m_readpos := 32768 })).2.m_workerJoinable = true :=
    (congrArg LivestreamState.m_workerJoinable hw2.2.1).trans f_j
  -- the in-buffer seek to writepos = startpos + capacity
  have hmb : min_buffered (curl_write 32768 d2 ({ (curl_write 32768 d1 c7s1).2 with
      m_buffertail := 32768, m_readpos := 32768 })).2 = 0 := by
    unfold min_buffered
    rw [g_wp, g_sp, g_C]
    decide
  have hseek := seek_in_spec 32768 65536 true ⟨[], [], 0, []⟩
    ((curl_write 32768 d2 ({ (curl_write 32768 d1 c7s1).2 with
      m_buffertail := 32768, m_readpos := 32768 })).2)
    (by rw [g_rp]; omega) g_j (by rw [hmb]; omega) (by rw [g_wp])
  have hT : (if min_buffered (curl_write 32768 d2 ({ (curl_write 32768 d1 c7s1).2 with
        m_buffertail := 32768, m_readpos := 32768 })).2 =
        (curl_write 32768 d2 ({ (curl_write 32768 d1 c7s1).2 with
          m_buffertail := 32768, m_readpos := 32768 })).2.m_startpos then
      65536 - (curl_write 32768 d2 ({ (curl_write 32768 d1 c7s1).2 with
        m_buffertail := 32768, m_readpos := 32768 })).2.m_startpos
    else if (curl_write 32768 d2 ({ (curl_write 32768 d1 c7s1).2 with
          m_buffertail := 32768, m_readpos := 32768 })).2.m_buffersize -
        (curl_write 32768 d2 ({ (curl_write 32768 d1 c7s1).2 with
          m_buffertail := 32768, m_readpos := 32768 })).2.m_bufferhead ≤
        65536 - min_buffered (curl_write 32768 d2 ({ (curl_write 32768 d1 c7s1).2 with
          m_buffertail := 32768, m_readpos := 32768 })).2 then
      65536 - min_buffered (curl_write 32768 d2 ({ (curl_write 32768 d1 c7s1).2 with
          m_buffertail := 32768, m_readpos := 32768 })).2 -
        ((curl_write 32768 d2 ({ (curl_write 32768 d1 c7s1).2 with
          m_buffertail := 32768, m_readpos := 32768 })).2.m_buffersize -
         (curl_write 32768 d2 ({ (curl_write 32768 d1 c7s1).2 with
          m_buffertail := 32768, m_readpos := 32768 })).2.m_bufferhead)
    else (curl_write 32768 d2 ({ (curl_write 32768 d1 c7s1).2 with
        m_buffertail := 32768, m_readpos := 32768 })).2.m_bufferhead +
      (65536 - min_buffered (curl_write 32768 d2 ({ (curl_write 32768 d1 c7s1).2 with
        m_buffertail := 32768, m_readpos := 32768 })).2)) = 65536 := by
    rw [hmb, g_sp, g_C, g_h]
    decide
  rw [hT] at hseek
  -- reachability of the final state
  have R0 : Reach 32768 true c7s0 := Reach.init 100
  have R1 : Reach 32768 true c7s1 := Reach.spawn c7s0 R0 rfl
  have R2 : Reach 32768 true (curl_write 32768 d1 c7s1).2 :=
    Reach.write c7s1 d1 R1 b7
  have R3 : Reach 32768 true ({ (curl_write 32768 d1 c7s1).2 with
      m_buffertail := 32768, m_readpos := 32768 }) :=
    Reach.readStep _ 32768 out _ R2 hro
  have R4 : Reach 32768 true (curl_write 32768 d2 ({ (curl_write 32768 d1 c7s1).2 with
      m_buffertail := 32768, m_readpos := 32768 })).2 :=
    Reach.write _ d2 R3 f_j
  have R5 : Reach 32768 true ({ (curl_write 32768 d2 ({ (curl_write 32768 d1 c7s1).2 with
      m_buffertail := 32768, m_readpos := 32768 })).2 with
      m_buffertail := 65536, m_readpos := 65536 }) :=
    Reach.seekStep _ 65536 true ⟨[], [], 0, []⟩ 65536 _ R4 (Or.inl rfl) hseek
  exact ⟨out, _, _, hro, hseek, R5, g_C, rfl, g_h, g_wp, rfl⟩

/-- The claim of C7 fails on the code.  From a freshly constructed instance
(`WRITE_PADDING = 32768`, requested size 100, so capacity `C = 65536`), the
concrete run - spawn the worker, write 32768 bytes, read them, write 32768
more (the head wraps to 0 and `writepos - startpos = C` exactly), then
`seek 65536`, an in-buffer seek since `min_buffered = 0 ≤ 65536 ≤ writepos` -
reaches a state whose tail is `65536 = C`, outside `[0, C)`, and whose ring
holds no unread byte (`writepos = readpos = 65536`) while
`head = 0 ≠ 65536 = tail`, so the reader does not see it as empty.  Both
parts of the claimed invariant fail at this reachable state. -/
theorem C7_counterexample :
    ∃ (out : List Nat) (s3 s5 : LivestreamState),
      read false 32768 (curl_write 32768 (List.replicate 32768 1) c7s1).2 = .ok (out, s3) ∧
      seek 32768 65536 true ⟨[], [], 0, []⟩
        (curl_write 32768 (List.replicate 32768 2) s3).2 = some (.ok (65536, s5)) ∧
      Reach 32768 true s5 ∧
      ¬ (s5.m_buffertail < s5.m_buffersize) ∧
      ¬ (s5.m_bufferhead = s5.m_buffertail ↔ s5.m_writepos = s5.m_readpos) := by
  obtain ⟨out, s3, s5, hread, hseek, hreach, kC, kt, kh, kwp, krp⟩ :=
    c7_chain (List.replicate 32768 1) (List.replicate 32768 2)
      (List.length_replicate 32768 1) (List.length_replicate 32768 2)
  refine ⟨out, s3, s5, hread, hseek, hreach, ?_, ?_⟩
  · rw [kt, kC]; omega
  · rw [kh, kt]
    intro hiff
    have : (0 : Nat) = 65536 := hiff.mpr (kwp.trans krp.symm)
    omega

/-- C7 (amended): restricted to runs whose in-buffer seeks avoid the boundary
targets excluded by `seek_safe` (seeking to `writepos` or to `startpos` when
`writepos - startpos` equals the capacity, or to the minimum buffered
position once the window has wrapped past the capacity), every reachable
state keeps `head, tail ∈ [0, C)`, and `head = tail` exactly when the ring
holds no unread bytes (`writepos = readpos`). -/
theorem C7_ring_invariant (P : Nat) (s : LivestreamState) (hP : 0 < P)
    (h : Reach P false s) :
    s.m_bufferhead < s.m_buffersize ∧ s.m_buffertail < s.m_buffersize ∧
    (s.m_bufferhead = s.m_buffertail ↔ s.m_writepos = s.m_readpos) := by
  have hi := Reach_inv P hP s h
  exact ⟨hi.2.1, hi.2.2.1, Inv_iff_empty s hi⟩

/-! ## Claims C1, C2, C4 -/

/-- C1: on an idle instance (no joinable worker, `readpos = startpos`),
`start` raises a transport-failed error carrying the transport's error text
exactly when the worker's final transfer result indicates failure and no data
was produced; in every other case it returns `m_readpos`, which equals the
`m_startpos` reported by the server.  `hwake` excludes the run that stalls in
a pause before producing any data, in which `start` never wakes at all. -/
theorem C1_start_transport_error (P : Nat) (u : List Char) (t : Transfer)
    (s : LivestreamState) (r : LivestreamState × Bool × Bool)
    (hj : s.m_workerJoinable = false) (hrs : s.m_readpos = s.m_startpos)
    (hr : transfer_run P t { s with m_curl := true, m_workerJoinable := true } = r)
    (hwake : ¬(r.2.1 = true ∧ r.2.2 = false)) :
    ((t.result ≠ 0 ∧ r.2.2 = false) ↔
        start P (some u) true t s = some (.error (.transferFailed t.errtext))) ∧
    (¬(t.result ≠ 0 ∧ r.2.2 = false) →
        start P (some u) true t s = some (.ok (r.1.m_readpos, r.1)) ∧
        r.1.m_readpos = r.1.m_startpos) := by
  have hstart : start P (some u) true t s =
      (if r.2.1 && !r.2.2 then none
       else if (if r.2.2 then 0 else t.result) ≠ 0 then
         some (.error (.transferFailed r.1.m_curlerr))
       else some (.ok (r.1.m_readpos, r.1))) := by
    simp only [start, Option.isNone_some, Bool.false_eq_true, Bool.true_eq_false, hj,
      if_false, hr]
  have herr : (t.result ≠ 0 ∧ r.2.2 = false) →
      start P (some u) true t s = some (.error (.transferFailed t.errtext)) := by
    rintro ⟨hres, hnd⟩
    have hstall : r.2.1 = false := by
      cases hq : r.2.1
      · rfl
      · exact absurd ⟨hq, hnd⟩ hwake
    have hcerr : r.1.m_curlerr = t.errtext := by
      rw [← hr]
      exact transfer_run_err P t _ (by rw [hr]; exact hstall) hres
    rw [hstart, hstall, hnd]
    simp [hres, hcerr]
  have hok : ¬(t.result ≠ 0 ∧ r.2.2 = false) →
      start P (some u) true t s = some (.ok (r.1.m_readpos, r.1)) := by
    intro hn
    rw [hstart]
    cases hq : r.2.2
    · have hres : t.result = 0 := by
        by_contra hcon
        exact hn ⟨hcon, hq⟩
      have hstall : r.2.1 = false := by
        cases hp : r.2.1
        · rfl
        · exact absurd ⟨hp, hq⟩ hwake
      rw [hstall]
      simp [hres]
    · simp
  have hrsp : r.1.m_readpos = r.1.m_startpos := by
    rw [← hr]
    exact (transfer_run_rp_sp_len P t _ (by dsimp only; exact hrs)).1
  refine ⟨⟨herr, ?_⟩, fun hn => ⟨hok hn, hrsp⟩⟩
  intro heq
  by_contra hn
  rw [hok hn] at heq
  exact absurd heq (by simp)

/-- C1 witness: a successful empty transfer on a fresh instance makes `start`
return the final `m_readpos` and state. -/
theorem C1_witness :
    (livestream_init 1 0).m_workerJoinable = false ∧
    start 1 (some ['u']) true ⟨[], [], 0, []⟩ (livestream_init 1 0) =
      some (.ok ((transfer_run 1 ⟨[], [], 0, []⟩ { livestream_init 1 0 with
            m_curl := true, m_workerJoinable := true }).1.m_readpos,
        (transfer_run 1 ⟨[], [], 0, []⟩ { livestream_init 1 0 with
            m_curl := true, m_workerJoinable := true }).1)) :=
  ⟨rfl, ((C1_start_transport_error 1 ['u'] ⟨[], [], 0, []⟩ (livestream_init 1 0) _
      rfl rfl rfl (by decide)).2 (by decide)).1⟩

/-- C2: an in-buffer seek (active worker, `target ≠ readpos`,
`min_buffered ≤ target ≤ writepos`) rewrites only the tail index and
`m_readpos` and returns the target: when `writepos - startpos ≤ C` the new
tail is `target - startpos`; otherwise, with `delta = target - min_buffered`,
it is `delta - (C - head)` when `C - head ≤ delta` and `head + delta`
otherwise.  Every other field - in particular the worker and session flags -
is untouched. -/
theorem C2_seek_in_buffer (P pos : Nat) (rok : Bool) (t : Transfer) (s : LivestreamState)
    (hne : pos ≠ s.m_readpos) (hj : s.m_workerJoinable = true)
    (hsw : s.m_startpos ≤ s.m_writepos)
    (hlo : min_buffered s ≤ pos) (hhi : pos ≤ s.m_writepos) :
    seek P pos rok t s = some (.ok (pos,
      { s with
        m_buffertail :=
          if s.m_writepos - s.m_startpos ≤ s.m_buffersize then pos - s.m_startpos
          else if s.m_buffersize - s.m_bufferhead ≤ pos - (s.m_writepos - s.m_buffersize) then
            pos - (s.m_writepos - s.m_buffersize) - (s.m_buffersize - s.m_bufferhead)
          else s.m_bufferhead + (pos - (s.m_writepos - s.m_buffersize)),
        m_readpos := pos })) := by
  rw [seek_in_spec P pos rok t s hne hj hlo hhi]
  have htail : (if min_buffered s = s.m_startpos then pos - s.m_startpos
      else if s.m_buffersize - s.m_bufferhead ≤ pos - min_buffered s then
        pos - min_buffered s - (s.m_buffersize - s.m_bufferhead)
      else s.m_bufferhead + (pos - min_buffered s)) =
      (if s.m_writepos - s.m_startpos ≤ s.m_buffersize then pos - s.m_startpos
       else if s.m_buffersize - s.m_bufferhead ≤ pos - (s.m_writepos - s.m_buffersize) then
         pos - (s.m_writepos - s.m_buffersize) - (s.m_buffersize - s.m_bufferhead)
       else s.m_bufferhead + (pos - (s.m_writepos - s.m_buffersize))) := by
    unfold min_buffered
    split_ifs <;> omega
  rw [htail]

/-- C2 witness: in the three-byte state `c2w`, seeking to position 2 sets
`tail = 2` and `readpos = 2` and returns 2. -/
theorem C2_witness :
    (2 ≠ c2w.m_readpos ∧ c2w.m_workerJoinable = true ∧ c2w.m_startpos ≤ c2w.m_writepos ∧
      min_buffered c2w ≤ 2 ∧ 2 ≤ c2w.m_writepos) ∧
    seek 1 2 true ⟨[], [], 0, []⟩ c2w = some (.ok (2,
      { c2w with
        m_buffertail :=
          if c2w.m_writepos - c2w.m_startpos ≤ c2w.m_buffersize then 2 - c2w.m_startpos
          else if c2w.m_buffersize - c2w.m_bufferhead ≤
              2 - (c2w.m_writepos - c2w.m_buffersize) then
            2 - (c2w.m_writepos - c2w.m_buffersize) - (c2w.m_buffersize - c2w.m_bufferhead)
          else c2w.m_bufferhead + (2 - (c2w.m_writepos - c2w.m_buffersize)),
        m_readpos := 2 })) :=
  ⟨⟨by decide, by decide, by decide, by decide, by decide⟩,
   C2_seek_in_buffer 1 2 true ⟨[], [], 0, []⟩ c2w (by decide) (by decide) (by decide)
     (by decide) (by decide)⟩

/-- C4: `m_length` is monotonically non-decreasing over the instance's life -
the write sink never lowers it and only ever raises it to the new
`m_writepos` when that exceeds it, response headers and
`reset_stream_state` leave it intact, and a successful `start` or `seek`
(including the worker restart of an out-of-buffer seek) never lowers it -
with the single exception of `stop`, which either resets it to 0 or (with no
worker to stop) leaves the state untouched. -/
theorem C4_length_monotone (P : Nat) (d : List Nat) (line : List Char)
    (url : Option (List Char)) (ok rok : Bool) (t t2 : Transfer)
    (pos jr r1 r2 r3 : Nat) (je : List Char) (s s1 s2 s3 : LivestreamState) :
    s.m_length ≤ (curl_write P d s).2.m_length ∧
    ((curl_write P d s).2.m_length = s.m_length ∨
      ((curl_write P d s).2.m_length = (curl_write P d s).2.m_writepos ∧
        s.m_length < (curl_write P d s).2.m_writepos)) ∧
    (curl_responseheaders line s).2.m_length = s.m_length ∧
    (∀ s4, reset_stream_state s = .ok s4 → s4.m_length = s.m_length) ∧
    (start P url ok t s = some (.ok (r1, s1)) → s.m_length ≤ s1.m_length) ∧
    (seek P pos rok t2 s = some (.ok (r2, s2)) → s.m_length ≤ s2.m_length) ∧
    (stop jr je s = .ok (r3, s3) → s3.m_length = 0 ∨ s3 = s) := by
  refine ⟨(curl_write_fields P d s).2.2.2.2.2.2.2, ?_,
    (curl_responseheaders_fields line s).2.2.2.1, ?_,
    start_length P url ok t r1 s s1, seek_length P pos rok t2 r2 s s2, ?_⟩
  · simp only [curl_write]
    split_ifs with h1 h2 h3
    · exact Or.inl rfl
    · exact Or.inl rfl
    · exact Or.inr ⟨rfl, h3⟩
    · exact Or.inl rfl
  · intro s4 hr4
    unfold reset_stream_state at hr4
    split_ifs at hr4
    simp only [Except.ok.injEq] at hr4
    rw [← hr4]
  · intro hs
    simp only [stop] at hs
    split_ifs at hs with h1
    · simp only [Except.ok.injEq, Prod.mk.injEq] at hs
      exact Or.inr hs.2.symm
    · simp only [reset_stream_state, if_neg (by simp : ¬ (false = true))] at hs
      simp only [Except.ok.injEq, Prod.mk.injEq] at hs
      rw [← hs.2]
      exact Or.inl rfl

/-- C4 witness: `stop` on a fresh instance leaves the state untouched, one
of the two allowed outcomes. -/
theorem C4_witness :
    stop 0 [] (livestream_init 1 0) = .ok (0, livestream_init 1 0) ∧
    ((livestream_init 1 0).m_length = 0 ∨ livestream_init 1 0 = livestream_init 1 0) :=
  ⟨rfl, (C4_length_monotone 1 [7] [] (some ['u']) true true ⟨[], [], 0, []⟩ ⟨[], [], 0, []⟩
      0 0 0 0 0 [] (livestream_init 1 0) (livestream_init 1 0) (livestream_init 1 0)
      (livestream_init 1 0)).2.2.2.2.2.2 rfl⟩

/-! ## Claims C3, C5, C6, C8, C9, C10 -/

/-- C3: the write sink is all-or-nothing.  For a chunk of `n > 0` bytes, if
the available space computed from the `(head, tail)` snapshot is less than
`n + WRITE_PADDING`, it sets `m_paused`, returns the pause sentinel and
changes nothing else; otherwise it copies all `n` bytes (split at the wrap),
advances the head to `(head + n) % C`, adds `n` to `m_writepos`, and returns
the full count - never a partial one (the two cases are exhaustive). -/
theorem C3_write_all_or_nothing (P : Nat) (d : List Nat) (s : LivestreamState)
    (hP : 0 < P) (hn : 0 < d.length)
    (hh : s.m_bufferhead < s.m_buffersize) (ht : s.m_buffertail < s.m_buffersize) :
    (ring_available s.m_buffersize s.m_bufferhead s.m_buffertail < d.length + P →
      curl_write P d s = (CURL_WRITEFUNC_PAUSE, { s with m_paused := true })) ∧
    (d.length + P ≤ ring_available s.m_buffersize s.m_bufferhead s.m_buffertail →
      (curl_write P d s).1 = d.length ∧
      (curl_write P d s).2.m_bufferhead = (s.m_bufferhead + d.length) % s.m_buffersize ∧
      (curl_write P d s).2.m_writepos = s.m_writepos + d.length ∧
      (curl_write P d s).2.m_buffertail = s.m_buffertail ∧
      (curl_write P d s).2.m_readpos = s.m_readpos ∧
      (curl_write P d s).2.m_length =
        (if s.m_length < s.m_writepos + d.length then s.m_writepos + d.length
         else s.m_length) ∧
      (∀ j, j < d.length →
        (curl_write P d s).2.m_buffer ((s.m_bufferhead + j) % s.m_buffersize) =
          d.getD j 0)) := by
  constructor
  · intro hav
    exact curl_write_pause P d s hn hav
  · intro hav
    have hacc := curl_write_accept P d s hP hn hh ht hav
    refine ⟨hacc.1, congrArg LivestreamState.m_bufferhead hacc.2.1,
      congrArg LivestreamState.m_writepos hacc.2.1, ?_, ?_,
      congrArg LivestreamState.m_length hacc.2.1, hacc.2.2.1⟩
    · exact (congrArg LivestreamState.m_buffertail hacc.2.1).trans rfl
    · exact (congrArg LivestreamState.m_readpos hacc.2.1).trans rfl

theorem C3_witness :
    (curl_write 1 [7] (livestream_init 1 0)).1 = [7].length :=
  ((C3_write_all_or_nothing 1 [7] (livestream_init 1 0) (by decide) (by decide)
    (by decide) (by decide)).2 (by decide)).1

/-- C5: `read` rejects a null buffer and an oversized count as invalid
arguments; a zero count returns no bytes; an empty ring (the
condition-variable wait expiring without data) returns no bytes and no error;
otherwise exactly `min count (read_available ...)` bytes are copied in ring
order, the new tail is published, and `m_readpos` advances by the bytes
copied, which are also the return value. -/
theorem C5_read_contract (count : Nat) (s : LivestreamState)
    (hh : s.m_bufferhead < s.m_buffersize) (ht : s.m_buffertail < s.m_buffersize) :
    read true count s = .error .invalidArgument ∧
    (s.m_buffersize < count → read false count s = .error .invalidArgument) ∧
    (count = 0 → read false count s = .ok ([], s)) ∧
    (s.m_bufferhead = s.m_buffertail → count ≤ s.m_buffersize →
      read false count s = .ok ([], s)) ∧
    (0 < count → count ≤ s.m_buffersize → s.m_bufferhead ≠ s.m_buffertail →
      ∃ out : List Nat, read false count s = .ok (out, { s with
          m_buffertail := (s.m_buffertail + out.length) % s.m_buffersize,
          m_readpos := s.m_readpos + out.length }) ∧
        out.length =
          min count (read_available s.m_buffersize s.m_bufferhead s.m_buffertail) ∧
        (∀ j, j < out.length →
          out.getD j 0 = s.m_buffer ((s.m_buffertail + j) % s.m_buffersize))) := by
  refine ⟨rfl, ?_, ?_, ?_, ?_⟩
  · intro hbig
    rw [read, if_neg (by simp), if_pos hbig]
  · intro hzero
    rw [read, if_neg (by simp), if_neg (by omega), if_pos hzero]
  · intro hempty hcnt
    by_cases hzero : count = 0
    · rw [read, if_neg (by simp), if_neg (by omega), if_pos hzero]
    · rw [read, if_neg (by simp), if_neg (by omega), if_neg hzero, if_pos hempty]
  · intro hpos hcnt hne
    obtain ⟨out, hro, hlen, hcontent⟩ := read_ok count s hpos hcnt hh ht hne
    refine ⟨out, ?_, hlen, hcontent⟩
    rw [hro, ← hlen]

theorem C5_witness :
    read false 2 (livestream_init 1 0) = .ok ([], livestream_init 1 0) :=
  (C5_read_contract 2 (livestream_init 1 0) (by decide) (by decide)).2.2.2.1 rfl (by decide)

/-- C6: `stop` is total.  With no joinable worker it returns 0 and changes
nothing; otherwise it signals stop, joins the worker (which records its final
result code and error text), captures `m_readpos`, resets the positions,
flags and ring indices, resets `m_length` to 0, destroys the CURL session and
returns the captured position. -/
theorem C6_stop_total (jr : Nat) (je : List Char) (s : LivestreamState) :
    (∃ out, stop jr je s = .ok out) ∧
    (s.m_workerJoinable = false → stop jr je s = .ok (0, s)) ∧
    (s.m_workerJoinable = true → stop jr je s = .ok (s.m_readpos,
      { s with m_started := false, m_paused := false, m_stop := false,
               m_startpos := 0, m_readpos := 0, m_writepos := 0,
               m_bufferhead := 0, m_buffertail := 0,
               m_workerJoinable := false, m_curlresult := jr, m_curlerr := je,
               m_length := 0, m_curl := false })) := by
  by_cases hj : s.m_workerJoinable = false
  · refine ⟨⟨(0, s), ?_⟩, fun _ => ?_, fun hco => absurd hco (by simp [hj])⟩ <;>
      rw [stop, if_pos hj]
  · have hj' : s.m_workerJoinable = true := by
      cases hq : s.m_workerJoinable
      · exact absurd hq hj
      · rfl
    have hrun : stop jr je s = .ok (s.m_readpos,
        { s with m_started := false, m_paused := false, m_stop := false,
                 m_startpos := 0, m_readpos := 0, m_writepos := 0,
                 m_bufferhead := 0, m_buffertail := 0,
                 m_workerJoinable := false, m_curlresult := jr, m_curlerr := je,
                 m_length := 0, m_curl := false }) := by
      rw [stop, if_neg hj]
      simp only [reset_stream_state, if_neg (by simp : ¬ (false = true))]
    exact ⟨⟨_, hrun⟩, fun hco => absurd hco (by simp [hj']), fun _ => hrun⟩

theorem C6_witness :
    stop 7 [] (livestream_init 1 0) = .ok (0, livestream_init 1 0) :=
  (C6_stop_total 7 [] (livestream_init 1 0)).2.1 rfl

/-- C8: the header adapter returns the full byte count of every nonempty
header line; it sets `m_startpos`, `m_readpos` and `m_writepos` to the parsed
start exactly when the line begins with the case-sensitive `Content-Range:`
prefix and the `sscanf` parse of `"Content-Range: bytes %llu-"` assigns its
`%llu` (which the prefix test then also passes); every other line leaves all
positions unchanged. -/
theorem C8_responseheaders (line : List Char) (s : LivestreamState)
    (hb : 0 < line.length) :
    (curl_responseheaders line s).1 = line.length ∧
    (∀ v, scanContentRange line = some v →
      CONTENT_RANGE_HEADER.isPrefixOf line = true ∧
      (curl_responseheaders line s).2 =
        { s with m_startpos := v, m_readpos := v, m_writepos := v }) ∧
    (scanContentRange line = none → (curl_responseheaders line s).2 = s) := by
  obtain ⟨hcount, hsome, hnone⟩ := curl_responseheaders_spec line s hb
  exact ⟨hcount, fun v hv => ⟨scan_some_starts line v hv, hsome v hv⟩, hnone⟩

theorem C8_witness :
    CONTENT_RANGE_HEADER.isPrefixOf ("Content-Range: bytes 42-".toList) = true ∧
    (curl_responseheaders ("Content-Range: bytes 42-".toList) (livestream_init 1 0)).2 =
      { livestream_init 1 0 with m_startpos := 42, m_readpos := 42, m_writepos := 42 } :=
  (C8_responseheaders ("Content-Range: bytes 42-".toList) (livestream_init 1 0)
    (by decide)).2.1 42 (by decide)

/-- C9 counterexample: the `size_t` computation of `align_up` wraps.  At the
largest `size_t` value the machine returns 0, which is not at or above the
input, so `align_up` does not return the smallest multiple of the alignment
at or above the value for every input the original claim quantifies over. -/
theorem C9_counterexample :
    align_up_w (2 ^ 64 - 1) 65536 = .ok 0 ∧ ¬(2 ^ 64 - 1 ≤ 0) :=
  ⟨rfl, by decide⟩

/-- C9 (amended): `align_up` raises out-of-range when the alignment is below
1; because the `size_t` sum wraps, the smallest-multiple reading holds on the
non-wrapping range: for `1 ≤ a` and `v ≤ 2 ^ 64 - a` the machine result is
the smallest multiple of `a` at or above `v`.  Consequently, whenever
`requested + WRITE_PADDING ≤ 2 ^ 64 - 65536`, the machine capacity
`align_up(requested + WRITE_PADDING, 65536)` equals the model capacity of
`livestream_init`: a positive multiple of 65536, hence strictly larger than
the (small, positive) `WRITE_PADDING`. -/
theorem C9_capacity :
    (∀ v a, a < 1 → align_up_w v a = .error .outOfRange) ∧
    (∀ v a r, 1 ≤ a → v ≤ 2 ^ 64 - a → align_up_w v a = .ok r →
      r % a = 0 ∧ v ≤ r ∧ ∀ m, m % a = 0 → v ≤ m → r ≤ m) ∧
    (∀ P req, 0 < P → P < 65536 → req + P ≤ 2 ^ 64 - 65536 →
      align_up_w (req + P) 65536 = .ok (livestream_init P req).m_buffersize ∧
      capacity_w P req = (livestream_init P req).m_buffersize ∧
      (livestream_init P req).m_buffersize % 65536 = 0 ∧
      0 < (livestream_init P req).m_buffersize ∧
      P < (livestream_init P req).m_buffersize) := by
  have key : ∀ v a r, 1 ≤ a → align_up v a = .ok r →
      r % a = 0 ∧ v ≤ r ∧ ∀ m, m % a = 0 → v ≤ m → r ≤ m := by
    intro v a r ha hr
    rw [align_up, if_neg (by omega)] at hr
    simp only [Except.ok.injEq] at hr
    subst hr
    by_cases hv : v = 0
    · subst hv
      simp [align_up_val]
    · have hrem : v % a < a := Nat.mod_lt v (by omega)
      have hdiv := Nat.div_add_mod v a
      by_cases hz : v % a = 0
      · have hval : align_up_val v a = v := by
          unfold align_up_val
          rw [if_neg hv, hz, Nat.sub_zero, Nat.mod_self, Nat.add_zero]
        rw [hval]
        exact ⟨hz, le_refl v, fun m _ hm => hm⟩
      · have hval : align_up_val v a = a * (v / a) + a := by
          unfold align_up_val
          rw [if_neg hv, Nat.mod_eq_of_lt (show a - v % a < a by omega)]
          omega
        refine ⟨?_, by omega, ?_⟩
        · rw [hval, show a * (v / a) + a = a * (v / a + 1) from by ring]
          exact Nat.mul_mod_right a (v / a + 1)
        · intro m hm hvm
          have hmk := Nat.div_add_mod m a
          rw [hm, Nat.add_zero] at hmk
          have hqlt : v / a < m / a := by
            by_contra hcon
            have h1 : m / a ≤ v / a := by omega
            have h2 : a * (m / a) ≤ a * (v / a) := Nat.mul_le_mul_left a h1
            omega
          have h4 : a * (v / a + 1) ≤ a * (m / a) := Nat.mul_le_mul_left a (by omega)
          have h5 : a * (v / a + 1) = a * (v / a) + a := by ring
          omega
  have hbridge : ∀ v a, 1 ≤ a → v ≤ 2 ^ 64 - a →
      align_up_w v a = .ok (align_up_val v a) := by
    intro v a ha hb
    rw [align_up_w, if_neg (by omega), align_up_val_w_eq v a ha hb]
  refine ⟨?_, ?_, ?_⟩
  · intro v a ha
    rw [align_up_w, if_pos ha]
  · intro v a r ha hb hr
    rw [hbridge v a ha hb] at hr
    simp only [Except.ok.injEq] at hr
    subst hr
    exact key v a _ ha (by rw [align_up, if_neg (by omega)])
  · intro P req hP hP2 hbound
    have hok : align_up_w (req + P) 65536 = .ok (livestream_init P req).m_buffersize := by
      rw [hbridge (req + P) 65536 (by omega) (by omega)]
      rfl
    have hcw : capacity_w P req = (livestream_init P req).m_buffersize := by
      unfold capacity_w
      rw [Nat.mod_eq_of_lt (by omega)]
      exact align_up_val_w_eq (req + P) 65536 (by omega) (by omega)
    have hoki : align_up (req + P) 65536 = .ok (livestream_init P req).m_buffersize := by
      rw [align_up, if_neg (by omega)]
      rfl
    obtain ⟨hm, hle, _⟩ := key (req + P) 65536 _ (by omega) hoki
    have hpos : 0 < (livestream_init P req).m_buffersize := by omega
    have h64 : 65536 ≤ (livestream_init P req).m_buffersize :=
      Nat.le_of_dvd hpos (Nat.dvd_of_mod_eq_zero hm)
    exact ⟨hok, hcw, hm, hpos, by omega⟩

theorem C9_witness :
    align_up_w (0 + 4096) 65536 = .ok (livestream_init 4096 0).m_buffersize ∧
    capacity_w 4096 0 = (livestream_init 4096 0).m_buffersize ∧
    (livestream_init 4096 0).m_buffersize % 65536 = 0 ∧
    0 < (livestream_init 4096 0).m_buffersize ∧
    4096 < (livestream_init 4096 0).m_buffersize :=
  C9_capacity.2.2 4096 0 (by decide) (by decide) (by decide)

/-- C10: `seek` tests `position == m_readpos` before testing whether the
worker is running, so seeking to the current read position succeeds (as a
no-op) even on an idle instance; the inactive-transfer state violation is
raised only when the target differs from `m_readpos`. -/
theorem C10_seek_noop_before_state_check (P pos : Nat) (rok : Bool) (t : Transfer)
    (s : LivestreamState) :
    (pos = s.m_readpos → seek P pos rok t s = some (.ok (pos, s))) ∧
    (pos ≠ s.m_readpos → s.m_workerJoinable = false →
      seek P pos rok t s = some (.error .stateViolation)) := by
  constructor
  · intro he
    rw [seek, if_pos he]
  · intro hne hj
    rw [seek, if_neg hne, if_pos hj]

theorem C10_witness :
    seek 1 0 true ⟨[], [], 0, []⟩ (livestream_init 1 0) =
      some (.ok (0, livestream_init 1 0)) :=
  (C10_seek_noop_before_state_check 1 0 true ⟨[], [], 0, []⟩ (livestream_init 1 0)).1 rfl

theorem C7_ring_invariant_witness :
    (0 : Nat) < 1 ∧
    ((livestream_init 1 0).m_bufferhead < (livestream_init 1 0).m_buffersize ∧
     (livestream_init 1 0).m_buffertail < (livestream_init 1 0).m_buffersize ∧
     ((livestream_init 1 0).m_bufferhead = (livestream_init 1 0).m_buffertail ↔
      (livestream_init 1 0).m_writepos = (livestream_init 1 0).m_readpos)) :=
  ⟨by decide, C7_ring_invariant 1 (livestream_init 1 0) (by decide) (Reach.init 0)⟩

end livestream
